import Mathlib

/-!
Verification development for the RAGgle backend (`src/backend/indexing.py`,
`src/backend/app.py`).  The Python code is shallowly embedded: strings are
`List Char` / `String`, `json` values are the inductive `Json`, decode
failures and uncaught Python exceptions are `Option`/result constructors.
All definitions are executable so that concrete runs can be checked with
`decide` / `rfl`.
-/

set_option maxRecDepth 100000

namespace Raggle

/-! ## Python character / string primitives -/

/-- Python `str.isspace` for a single character, as in CPython (the Unicode
whitespace set; every code point for which Python returns `True`). -/
def pyIsspace (c : Char) : Bool :=
  c = ' ' || c = '\t' || c = '\n' || c = '\r' || c = '\x0b' || c = '\x0c' ||
  c = '\x1c' || c = '\x1d' || c = '\x1e' || c = '\x1f' || c = '\x85' ||
  c = '\xa0' || c = ' ' ||
  (0x2000 ≤ c.toNat && c.toNat ≤ 0x200a) ||
  c = ' ' || c = ' ' || c = ' ' || c = ' ' || c = '　'

/-- ASCII part of `str.lower` (the inputs handled by the claims are ASCII). -/
def pyLowerChar (c : Char) : Char :=
  if 'A' ≤ c ∧ c ≤ 'Z' then Char.ofNat (c.toNat + 32) else c

def pyLowerList (cs : List Char) : List Char := cs.map pyLowerChar

def pyLower (s : String) : String := String.mk (pyLowerList s.toList)

/-- ASCII part of `str.upper`. -/
def pyUpperChar (c : Char) : Char :=
  if 'a' ≤ c ∧ c ≤ 'z' then Char.ofNat (c.toNat - 32) else c

/-- Python `str.lstrip()` (no argument: strip leading whitespace). -/
def pyLstrip (cs : List Char) : List Char := cs.dropWhile pyIsspace

/-- Python `str.strip()` (no argument: strip whitespace on both ends). -/
def pyStripList (cs : List Char) : List Char :=
  ((cs.dropWhile pyIsspace).reverse.dropWhile pyIsspace).reverse

def pyStrip (s : String) : String := String.mk (pyStripList s.toList)

/-- Python slicing `s[:n]` on strings (by code point). -/
def pyTake (n : Nat) (s : String) : String := String.mk (s.toList.take n)

/-- Python `needle` occurs at the start of `hay` (`str.startswith` over char lists). -/
def startsSeq : List Char → List Char → Bool
  | _, [] => true
  | [], _ :: _ => false
  | h :: t, n :: ns => h = n && startsSeq t ns

/-- Python `s.startswith(pre)`. -/
def pyStartsWith (s pre : String) : Bool := startsSeq s.toList pre.toList

/-- Python `needle in hay` (contiguous-substring membership, Python `in` on `str`). -/
def containsSeq (hay needle : List Char) : Bool :=
  startsSeq hay needle ||
    match hay with
    | [] => false
    | _ :: t => containsSeq t needle

/-- The substring occurrence relation `containsSeq` decides. -/
def OccursIn (needle hay : List Char) : Prop :=
  ∃ p q, hay = p ++ needle ++ q

/-! ## The Python `json` value model

Decoded values are represented structurally.  Numbers keep their source
lexeme: Python decodes them to `int`/`float`; the lexeme coincides with
`str()` of the decoded value for integers and canonical decimals (the only
numeric values the claims exercise).  Objects keep bindings in source order
with duplicates; `dict` lookup takes the last binding, membership any. -/

inductive Json where
  | null : Json
  | bool : Bool → Json
  | num : String → Json
  | str : String → Json
  | arr : List Json → Json
  | obj : List (String × Json) → Json

namespace Json

/-- Python `dict[k]` / `dict.get(k)`: the last binding wins (as when the parser
builds the dict by repeated assignment). -/
def lookupLast (fields : List (String × Json)) (k : String) : Option Json :=
  match fields with
  | [] => none
  | (k', v) :: rest =>
    match lookupLast rest k with
    | some r => some r
    | none => if k' = k then some v else none

/-- Python `k in item` for a decoded object; `none` for non-objects. -/
def getKey : Json → String → Option Json
  | .obj fields, k => lookupLast fields k
  | _, _ => none

def isObj : Json → Bool
  | .obj _ => true
  | _ => false

/-- Is this numeric lexeme the number zero?  (`NaN`/`Infinity` lexemes have
no digits and are truthy.) -/
def numIsZero (lexeme : String) : Bool :=
  let mantissa := (lexeme.toList.takeWhile (fun c => c ≠ 'e' ∧ c ≠ 'E')).filter
    (fun c => c.isDigit)
  mantissa ≠ [] && mantissa.all (· = '0')

/-- Python truthiness of a decoded value. -/
def pyTruthy : Json → Bool
  | .null => false
  | .bool b => b
  | .num l => !numIsZero l
  | .str s => !s.isEmpty
  | .arr l => !l.isEmpty
  | .obj fs => !fs.isEmpty

mutual

/-- Python `repr()` of a decoded value, used only inside container `str()`;
approximate (no escaping inside strings), never hit by the claims. -/
def pyReprJ : Json → String
  | .null => "None"
  | .bool b => if b then "True" else "False"
  | .num l => l
  | .str s => "\x27" ++ s ++ "\x27"
  | .arr l => "[" ++ pyReprArr l ++ "]"
  | .obj fs => "\x7b" ++ pyReprFields fs ++ "\x7d"

def pyReprArr : List Json → String
  | [] => ""
  | [x] => pyReprJ x
  | x :: y :: rest => pyReprJ x ++ ", " ++ pyReprArr (y :: rest)

def pyReprFields : List (String × Json) → String
  | [] => ""
  | [(k, v)] => "\x27" ++ k ++ "\x27: " ++ pyReprJ v
  | (k, v) :: y :: rest => "\x27" ++ k ++ "\x27: " ++ pyReprJ v ++ ", " ++ pyReprFields (y :: rest)

end

/-- Python `str()` of a decoded value (as in `f"${price}"`). -/
def pyStrJ : Json → String
  | .null => "None"
  | .bool b => if b then "True" else "False"
  | .num l => l
  | .str s => s
  | v => pyReprJ v

end Json

/-! ## The JSON parser (`json.JSONDecoder().raw_decode` / `json.loads`)

Faithful to CPython's scanner: JSON whitespace between tokens is
`' ', '\t', '\n', '\r'`; number grammar `-?(0|[1-9][0-9]*)(\.[0-9]+)?([eE][+-]?[0-9]+)?`
with maximal munch, plus the constants `NaN`, `Infinity`, `-Infinity`;
strict strings (unescaped control characters rejected, the usual escapes,
`\uXXXX` with surrogate-pair combination — a lone surrogate, which Lean
strings cannot carry, is approximated by `Char.ofNat`'s fallback).
`raw_decode` does not skip leading whitespace.  Structural recursion on a
fuel that is decremented only after consuming at least one character, so
`length + 1` fuel never runs out. -/

def jsonWs (c : Char) : Bool := c = ' ' || c = '\t' || c = '\n' || c = '\r'

def skipJsonWs (cs : List Char) : List Char := cs.dropWhile jsonWs

def hexVal (c : Char) : Option Nat :=
  if '0' ≤ c ∧ c ≤ '9' then some (c.toNat - '0'.toNat)
  else if 'a' ≤ c ∧ c ≤ 'f' then some (c.toNat - 'a'.toNat + 10)
  else if 'A' ≤ c ∧ c ≤ 'F' then some (c.toNat - 'A'.toNat + 10)
  else none

def hex4 : List Char → Option (Nat × List Char)
  | a :: b :: c :: d :: rest => do
    let va ← hexVal a
    let vb ← hexVal b
    let vc ← hexVal c
    let vd ← hexVal d
    pure (((va * 16 + vb) * 16 + vc) * 16 + vd, rest)
  | _ => none

/-- Parse the body of a JSON string (after the opening quote); fuelled,
each recursive step consumes at least one character. -/
def parseJStringF : Nat → List Char → Option (List Char × List Char)
  | 0, _ => none
  | _ + 1, [] => none
  | _ + 1, '"' :: rest => some ([], rest)
  | fuel + 1, '\\' :: rest =>
    match rest with
    | [] => none
    | e :: rest' =>
      let simple : Option Char :=
        if e = '"' then some '"'
        else if e = '\\' then some '\\'
        else if e = '/' then some '/'
        else if e = 'b' then some '\x08'
        else if e = 'f' then some '\x0c'
        else if e = 'n' then some '\n'
        else if e = 'r' then some '\r'
        else if e = 't' then some '\t'
        else none
      match simple with
      | some c =>
        match parseJStringF fuel rest' with
        | some (s, r) => some (c :: s, r)
        | none => none
      | none =>
        if e = 'u' then
          match hex4 rest' with
          | none => none
          | some (n, r1) =>
            if 0xd800 ≤ n ∧ n ≤ 0xdbff then
              -- try to combine a surrogate pair, as CPython does
              match r1 with
              | '\\' :: 'u' :: r2 =>
                match hex4 r2 with
                | some (n2, r3) =>
                  if 0xdc00 ≤ n2 ∧ n2 ≤ 0xdfff then
                    let cp := 0x10000 + (n - 0xd800) * 0x400 + (n2 - 0xdc00)
                    match parseJStringF fuel r3 with
                    | some (s, r) => some (Char.ofNat cp :: s, r)
                    | none => none
                  else
                    match parseJStringF fuel r1 with
                    | some (s, r) => some (Char.ofNat n :: s, r)
                    | none => none
                | none =>
                  match parseJStringF fuel r1 with
                  | some (s, r) => some (Char.ofNat n :: s, r)
                  | none => none
              | _ =>
                match parseJStringF fuel r1 with
                | some (s, r) => some (Char.ofNat n :: s, r)
                | none => none
            else
              match parseJStringF fuel r1 with
              | some (s, r) => some (Char.ofNat n :: s, r)
              | none => none
        else none
  | fuel + 1, c :: rest =>
    if c.toNat < 0x20 then none  -- strict mode: raw control characters rejected
    else
      match parseJStringF fuel rest with
      | some (s, r) => some (c :: s, r)
      | none => none

def parseJString (cs : List Char) : Option (List Char × List Char) :=
  parseJStringF (cs.length + 1) cs

/-- Maximal-munch match of CPython's NUMBER_RE; returns the lexeme. -/
def parseJNumber (cs : List Char) : Option (String × List Char) :=
  let (sign, cs1) :=
    match cs with
    | '-' :: rest => (['-'], rest)
    | _ => (([] : List Char), cs)
  match cs1 with
  | [] => none
  | d :: rest =>
    if ¬ d.isDigit then none
    else
      let (intPart, cs2) :=
        if d = '0' then ([d], rest)
        else
          let more := rest.takeWhile Char.isDigit
          (d :: more, rest.drop more.length)
      let (fracPart, cs3) :=
        match cs2 with
        | '.' :: f :: r =>
          if f.isDigit then
            let more := r.takeWhile Char.isDigit
            ('.' :: f :: more, r.drop more.length)
          else (([] : List Char), cs2)
        | _ => (([] : List Char), cs2)
      let (expPart, cs4) :=
        match cs3 with
        | e :: r =>
          if e = 'e' ∨ e = 'E' then
            match r with
            | s :: d2 :: r2 =>
              if (s = '+' ∨ s = '-') ∧ d2.isDigit then
                let more := r2.takeWhile Char.isDigit
                (e :: s :: d2 :: more, r2.drop more.length)
              else if s.isDigit then
                let more := (d2 :: r2).takeWhile Char.isDigit
                (e :: s :: more, (d2 :: r2).drop more.length)
              else (([] : List Char), cs3)
            | [s] =>
              if s.isDigit then ([e, s], ([] : List Char)) else (([] : List Char), cs3)
            | [] => (([] : List Char), cs3)
          else (([] : List Char), cs3)
        | [] => (([] : List Char), cs3)
      some (String.mk (sign ++ intPart ++ fracPart ++ expPart), cs4)

mutual

/-- One JSON value at the head of the input (no leading-whitespace skip). -/
def parseVal : Nat → List Char → Option (Json × List Char)
  | 0, _ => none
  | fuel + 1, cs =>
    match cs with
    | '\x7b' :: rest => parseObjBody fuel (skipJsonWs rest)
    | '[' :: rest => parseArrBody fuel (skipJsonWs rest)
    | '"' :: rest =>
      match parseJString rest with
      | some (s, r) => some (.str (String.mk s), r)
      | none => none
    | 'n' :: 'u' :: 'l' :: 'l' :: rest => some (.null, rest)
    | 't' :: 'r' :: 'u' :: 'e' :: rest => some (.bool true, rest)
    | 'f' :: 'a' :: 'l' :: 's' :: 'e' :: rest => some (.bool false, rest)
    | 'N' :: 'a' :: 'N' :: rest => some (.num "NaN", rest)
    | 'I' :: 'n' :: 'f' :: 'i' :: 'n' :: 'i' :: 't' :: 'y' :: rest =>
      some (.num "Infinity", rest)
    | '-' :: 'I' :: 'n' :: 'f' :: 'i' :: 'n' :: 'i' :: 't' :: 'y' :: rest =>
      some (.num "-Infinity", rest)
    | _ =>
      match parseJNumber cs with
      | some (lex, r) => some (.num lex, r)
      | none => none

/-- Object members, entered just past `{` with whitespace skipped. -/
def parseObjBody : Nat → List Char → Option (Json × List Char)
  | 0, _ => none
  | fuel + 1, cs =>
    match cs with
    | '\x7d' :: rest => some (.obj [], rest)
    | '"' :: rest =>
      match parseJString rest with
      | some (k, r1) =>
        match skipJsonWs r1 with
        | ':' :: r2 =>
          match parseVal fuel (skipJsonWs r2) with
          | some (v, r3) => parseObjRest fuel (String.mk k, v) [] (skipJsonWs r3)
          | none => none
        | _ => none
      | none => none
    | _ => none

/-- After one member: either `}` or `, "key" : value` repeated. -/
def parseObjRest : Nat → (String × Json) → List (String × Json) → List Char →
    Option (Json × List Char)
  | 0, _, _, _ => none
  | fuel + 1, kv, acc, cs =>
    match cs with
    | '\x7d' :: rest => some (.obj ((kv :: acc).reverse), rest)
    | ',' :: rest =>
      match skipJsonWs rest with
      | '"' :: r1 =>
        match parseJString r1 with
        | some (k, r2) =>
          match skipJsonWs r2 with
          | ':' :: r3 =>
            match parseVal fuel (skipJsonWs r3) with
            | some (v, r4) =>
              parseObjRest fuel (String.mk k, v) (kv :: acc) (skipJsonWs r4)
            | none => none
          | _ => none
        | none => none
      | _ => none
    | _ => none

/-- Array elements, entered just past `[` with whitespace skipped. -/
def parseArrBody : Nat → List Char → Option (Json × List Char)
  | 0, _ => none
  | fuel + 1, cs =>
    match cs with
    | ']' :: rest => some (.arr [], rest)
    | _ =>
      match parseVal fuel cs with
      | some (v, r1) => parseArrRest fuel v [] (skipJsonWs r1)
      | none => none

def parseArrRest : Nat → Json → List Json → List Char → Option (Json × List Char)
  | 0, _, _, _ => none
  | fuel + 1, v, acc, cs =>
    match cs with
    | ']' :: rest => some (.arr ((v :: acc).reverse), rest)
    | ',' :: rest =>
      match parseVal fuel (skipJsonWs rest) with
      | some (v', r1) => parseArrRest fuel v' (v :: acc) (skipJsonWs r1)
      | none => none
    | _ => none

end

/-- Python `json.JSONDecoder().raw_decode(s)`: one value from the head of `s`,
returning it with the unconsumed remainder, or a decode error (`none`). -/
def rawDecode (cs : List Char) : Option (Json × List Char) :=
  parseVal (cs.length + 1) cs

/-- Python `json.loads(s)`: skip surrounding JSON whitespace, require that the
whole input is one value. -/
def pyLoads (cs : List Char) : Option Json :=
  match rawDecode (skipJsonWs cs) with
  | some (v, rest) => if skipJsonWs rest = [] then some v else none
  | none => none

/-! ## The streaming decode loop of `ask_with_json_schema`
(`indexing.py` lines 249-300)

```
structured_data_list = []; pos = 0
answer = answer.lstrip()
while pos < len(answer):
    try:
        obj, end = decoder.raw_decode(answer[pos:])
        structured_data_list.append(obj); pos += end
        while pos < len(answer) and answer[pos].isspace(): pos += 1
    except json.JSONDecodeError: break
```
Modelled on the unconsumed suffix; each iteration consumes at least one
character, so fuel `length + 1` never runs out. -/

def decodeLoop : Nat → List Char → List Json × List Char
  | 0, cs => ([], cs)
  | fuel + 1, cs =>
    match cs with
    | [] => ([], [])
    | _ :: _ =>
      match rawDecode cs with
      | none => ([], cs)
      | some (v, rest) =>
        let next := decodeLoop fuel (rest.dropWhile pyIsspace)
        (v :: next.1, next.2)

/-- The whole `while` loop, applied to the (already `lstrip`ped) answer:
the decoded documents and the unconsumed remainder. -/
def decodeStream (cs : List Char) : List Json × List Char :=
  decodeLoop (cs.length + 1) cs

/-! The combine step (`indexing.py` lines 271-293):

```
for item in structured_data_list:
    if isinstance(item, dict):
        if 'products' in item and isinstance(item['products'], list):
            all_products.extend(item['products'])
        elif 'name' in item and 'price' in item:
            all_products.append(item)
        if 'summary' in item and item['summary']:
            summaries.append(item['summary'])
final_structured_data["products"] = all_products
final_structured_data["summary"] = " | ".join(summaries)
```
-/

/-- The `products` / `summaries` accumulation over the decoded documents.
Membership and subscripting on a decoded dict agree with `Json.getKey`
(last binding), so the branch guards are expressed through it. -/
def aggregate : List Json → List Json × List Json
  | [] => ([], [])
  | item :: rest =>
    let acc := aggregate rest
    match item with
    | .obj fields =>
      let prods : List Json :=
        match Json.lookupLast fields "products" with
        | some (.arr ps) => ps
        | _ =>
          match Json.lookupLast fields "name", Json.lookupLast fields "price" with
          | some _, some _ => [.obj fields]
          | _, _ => []
      let sums : List Json :=
        match Json.lookupLast fields "summary" with
        | some v => if v.pyTruthy then [v] else []
        | none => []
      (prods ++ acc.1, sums ++ acc.2)
    | _ => acc

/-- Python `" | ".join(summaries)`: raises `TypeError` (modelled as `none`) as soon
as an element is not a string. -/
def pyJoinStrs (sep : String) : List Json → Option String
  | [] => some ""
  | [.str s] => some s
  | .str s :: y :: rest =>
    match pyJoinStrs sep (y :: rest) with
    | some r => some (s ++ sep ++ r)
    | none => none
  | _ => none

/-- The value `ask_with_json_schema` returns (from the point where the
`answer` string is in hand): the raw (lstripped) answer, and the structured
payload, reported absent when no products were aggregated.  `success` and
`citations` pass through unchanged.  `none` models an uncaught exception
escaping to the caller. -/
structure AskOutcome where
  success : Bool
  answer : List Char
  structured : Option (List Json × String)

/-- The decode-and-aggregate logic of `ask_with_json_schema` applied to the
answer string. -/
def processAnswer (answer : List Char) : Option AskOutcome :=
  let a := pyLstrip answer
  let docs := (decodeStream a).1
  let agg := aggregate docs
  match pyJoinStrs " | " agg.2 with
  | none => none
  | some summary =>
    some
      { success := true
        answer := a
        structured := if agg.1.isEmpty then none else some (agg.1, summary) }

/-! A chunked description of answers on which the loop decodes a sequence of
documents and then stops: chunk `(b, w, v)` is a document text `b` decoding
to `v`, followed by skipped whitespace `w`. -/

def chunksText : List (List Char × List Char × Json) → List Char
  | [] => []
  | (b, w, _) :: r => b ++ (w ++ chunksText r)

/-- Each chunk's body decodes (in its full right context) to exactly that
chunk's document, leaving the following chunks and the garbage tail `g`
unconsumed; bodies start with a non-space character and the `w` parts are
whitespace. -/
def ChunksOk (g : List Char) : List (List Char × List Char × Json) → Prop
  | [] => True
  | (b, w, v) :: r =>
    (∃ bc bs, b = bc :: bs ∧ pyIsspace bc = false) ∧
    (∀ c ∈ w, pyIsspace c = true) ∧
    rawDecode (b ++ (w ++ (chunksText r ++ g))) = some (v, w ++ (chunksText r ++ g)) ∧
    ChunksOk g r

/-! Concrete decoder inputs used to check the claims on real runs. -/

def ansTwoProducts : List Char :=
  "\x7b\"products\":[\x7b\"name\":\"A\"\x7d]\x7d\x7b\"products\":[\x7b\"name\":\"B\"\x7d]\x7d".toList

def ansNotJson : List Char := "not json at all".toList

def ansBadSummaryNum : List Char := "\x7b\"summary\":5\x7d".toList

def ansBadSummaryList : List Char := "\x7b\"summary\":[1]\x7d".toList

def ansBareArray : List Char := "[\x7b\"name\":\"A\",\"price\":\"1\"\x7d]".toList

/-! ## A backtracking regex matcher for the fixed patterns of the source

Every pattern in `indexing.py` is compiled with `re.IGNORECASE` (plus
`re.DOTALL` where a `.` occurs), so literals are matched case-insensitively.
Every `*`/`+` in those patterns ranges over a single character class, so
repetition is represented as such (`starC`/`plusC`), which keeps the matcher
structurally recursive.  The continuation-passing matcher explores exactly
Python's backtracking order (left alternative first, greedy longest-first,
lazy shortest-first), so the first success is Python's match. -/

inductive RE where
  | eps : RE
  | cls : (Char → Bool) → RE
  | seq : RE → RE → RE
  | alt : RE → RE → RE
  | opt : Bool → RE → RE
  | starC : Bool → (Char → Bool) → RE
  | plusC : Bool → (Char → Bool) → RE
  | grp : RE → RE

def starGreedy {R : Type} (p : Char → Bool) (k : List Char → Option R) :
    List Char → Option R
  | [] => k []
  | c :: rest =>
    if p c then
      match starGreedy p k rest with
      | some r => some r
      | none => k (c :: rest)
    else k (c :: rest)

def starLazy {R : Type} (p : Char → Bool) (k : List Char → Option R) :
    List Char → Option R
  | [] => k []
  | c :: rest =>
    match k (c :: rest) with
    | some r => some r
    | none => if p c then starLazy p k rest else none

def reRun {R : Type} : RE → List Char → Option (List Char) →
    (List Char → Option (List Char) → Option R) → Option R
  | .eps, cs, caps, k => k cs caps
  | .cls p, cs, caps, k =>
    match cs with
    | [] => none
    | c :: rest => if p c then k rest caps else none
  | .seq a b, cs, caps, k => reRun a cs caps (fun cs' caps' => reRun b cs' caps' k)
  | .alt a b, cs, caps, k =>
    match reRun a cs caps k with
    | some r => some r
    | none => reRun b cs caps k
  | .opt true a, cs, caps, k =>
    match reRun a cs caps k with
    | some r => some r
    | none => k cs caps
  | .opt false a, cs, caps, k =>
    match k cs caps with
    | some r => some r
    | none => reRun a cs caps k
  | .starC true p, cs, caps, k => starGreedy p (fun cs' => k cs' caps) cs
  | .starC false p, cs, caps, k => starLazy p (fun cs' => k cs' caps) cs
  | .plusC true p, cs, caps, k =>
    match cs with
    | [] => none
    | c :: rest => if p c then starGreedy p (fun cs' => k cs' caps) rest else none
  | .plusC false p, cs, caps, k =>
    match cs with
    | [] => none
    | c :: rest => if p c then starLazy p (fun cs' => k cs' caps) rest else none
  | .grp a, cs, caps, k =>
    reRun a cs caps (fun cs' _ => k cs' (some (cs.take (cs.length - cs'.length))))

/-- Anchored match at the head: the consumed part and group 1's capture. -/
def reMatchAt (r : RE) (cs : List Char) : Option (List Char × Option (List Char)) :=
  reRun r cs none (fun rest caps => some (cs.take (cs.length - rest.length), caps))

/-- Python `re.search`: the leftmost position with a match. -/
def reSearch (r : RE) : List Char → Option (List Char × Option (List Char))
  | [] => reMatchAt r []
  | c :: rest =>
    match reMatchAt r (c :: rest) with
    | some m => some m
    | none => reSearch r rest

/-- Leftmost match together with the input remaining after it. -/
def reSearchRem (r : RE) : List Char → Option (List Char × Option (List Char) × List Char)
  | [] =>
    match reMatchAt r [] with
    | some (m, caps) => some (m, caps, [])
    | none => none
  | c :: rest =>
    match reMatchAt r (c :: rest) with
    | some (m, caps) => some (m, caps, (c :: rest).drop m.length)
    | none => reSearchRem r rest

/-- Python `re.findall`: non-overlapping matches, scanning left to right (an empty
match advances one character, as in Python).  The scan consumes at least one
character per emitted match, so fuel `length + 1` never runs out. -/
def reFindallF (r : RE) : Nat → List Char → List (List Char × Option (List Char))
  | 0, _ => []
  | fuel + 1, cs =>
    match reSearchRem r cs with
    | none => []
    | some (m, caps, rem) =>
      if m.isEmpty then
        (m, caps) ::
          (match rem with
           | [] => []
           | _ :: rem' => reFindallF r fuel rem')
      else (m, caps) :: reFindallF r fuel rem

def reFindall (r : RE) (cs : List Char) : List (List Char × Option (List Char)) :=
  reFindallF r (cs.length + 1) cs

/-- Python `re.findall` for a pattern with exactly one group: the group captures. -/
def reFindallGrp (r : RE) (cs : List Char) : List (List Char) :=
  (reFindall r cs).map (fun m => m.2.getD [])

/-- Python `re.findall` for a pattern with no group: the whole matches. -/
def reFindallWhole (r : RE) (cs : List Char) : List (List Char) :=
  (reFindall r cs).map (fun m => m.1)

/-! ### The patterns, compiled -/

/-- A literal character under `re.IGNORECASE`. -/
def ciChar (c : Char) : RE := .cls (fun x => pyLowerChar x == pyLowerChar c)

def rlit (s : String) : RE := s.toList.foldr (fun c acc => .seq (ciChar c) acc) .eps

def rcat (l : List RE) : RE := l.foldr .seq .eps

def ralts : List RE → RE
  | [] => .eps
  | [r] => r
  | r :: rest => .alt r (ralts rest)

def anyChar : Char → Bool := fun _ => true

/-- Python `\s` (str patterns: the Unicode whitespace set). -/
def wsC : Char → Bool := pyIsspace

def digitC (c : Char) : Bool := c.isDigit

def quoteC (c : Char) : Bool := c == '"' || c == '\''

def curC (c : Char) : Bool := c == '$' || c == '£' || c == '€' || c == '¥' || c == '₹'

/-- Python `<script[^>]*type=["\']application/ld\+json["\'][^>]*>(.*?)</script>` -/
def reScriptLdJson : RE :=
  rcat [rlit "<script", .starC true (· != '>'), rlit "type=", .cls quoteC,
        rlit "application/ld+json", .cls quoteC, .starC true (· != '>'), rlit ">",
        .grp (.starC false anyChar), rlit "</script>"]

/-- Python `"@type"\s*:\s*"Product"[^}]*}` -/
def reAtTypeProduct : RE :=
  rcat [rlit "\"@type\"", .starC true wsC, rlit ":", .starC true wsC, rlit "\"Product\"",
        .starC true (· != '\x7d'), rlit "\x7d"]

/-- Python `<title[^>]*>([^<|]+?)(?:\s*[\|\-].*?)?</title>` -/
def reTitleTag : RE :=
  rcat [rlit "<title", .starC true (· != '>'), rlit ">",
        .grp (.plusC false (fun c => c != '<' && c != '|')),
        .opt true (rcat [.starC true wsC, .cls (fun c => c == '|' || c == '-'),
                         .starC false anyChar]),
        rlit "</title>"]

/-- Python `"name"\s*:\s*"([^"]+)"` -/
def reNameJson : RE :=
  rcat [rlit "\"name\"", .starC true wsC, rlit ":", .starC true wsC, rlit "\"",
        .grp (.plusC true (· != '"')), rlit "\""]

/-- Python `<meta[^>]+property="og:title"[^>]+content="([^"]+)"` -/
def reOgTitle : RE :=
  rcat [rlit "<meta", .plusC true (· != '>'), rlit "property=\"og:title\"",
        .plusC true (· != '>'), rlit "content=\"", .grp (.plusC true (· != '"')), rlit "\""]

/-- Python `<h1[^>]*>([^<]+)</h1>` -/
def reH1 : RE :=
  rcat [rlit "<h1", .starC true (· != '>'), rlit ">", .grp (.plusC true (· != '<')),
        rlit "</h1>"]

/-- Python `[0-9,]+\.?[0-9]*` (the numeric token of the price patterns) -/
def numTok : RE :=
  rcat [.plusC true (fun c => c.isDigit || c == ','), .opt true (.cls (· == '.')),
        .starC true digitC]

/-- Python `"price"\s*:\s*"([0-9,]+\.?[0-9]*)"` -/
def rePriceJson : RE :=
  rcat [rlit "\"price\"", .starC true wsC, rlit ":", .starC true wsC, rlit "\"",
        .grp numTok, rlit "\""]

/-- Python `[\$£€¥₹]\s*([0-9,]+\.?[0-9]*)` -/
def rePriceSym : RE := rcat [.cls curC, .starC true wsC, .grp numTok]

/-- Python `<span[^>]*class="[^"]*price[^"]*"[^>]*>[\$£€¥₹]?\s*([0-9,]+\.?[0-9]*)` -/
def rePriceSpan : RE :=
  rcat [rlit "<span", .starC true (· != '>'), rlit "class=\"", .starC true (· != '"'),
        rlit "price", .starC true (· != '"'), rlit "\"", .starC true (· != '>'), rlit ">",
        .opt true (.cls curC), .starC true wsC, .grp numTok]

/-- Python `(?:jpg|jpeg|png|webp)` -/
def extAlt : RE := ralts [rlit "jpg", rlit "jpeg", rlit "png", rlit "webp"]

/-- Python `"image"\s*:\s*"([^"]+\.(?:jpg|jpeg|png|webp))"` -/
def reImageJson : RE :=
  rcat [rlit "\"image\"", .starC true wsC, rlit ":", .starC true wsC, rlit "\"",
        .grp (rcat [.plusC true (· != '"'), .cls (· == '.'), extAlt]), rlit "\""]

/-- Python `<meta[^>]+property="og:image"[^>]+content="([^"]+)"` -/
def reOgImage : RE :=
  rcat [rlit "<meta", .plusC true (· != '>'), rlit "property=\"og:image\"",
        .plusC true (· != '>'), rlit "content=\"", .grp (.plusC true (· != '"')), rlit "\""]

/-- Python `<img[^>]+(?:data-lazy-)?src=["\']([^"\']+\.(?:jpg|jpeg|png|webp))["\']` -/
def reImgSrc : RE :=
  rcat [rlit "<img", .plusC true (· != '>'), .opt true (rlit "data-lazy-"), rlit "src=",
        .cls quoteC,
        .grp (rcat [.plusC true (fun c => c != '"' && c != '\''), .cls (· == '.'), extAlt]),
        .cls quoteC]

/-- Python `data-src=["\']([^"\']+\.(?:jpg|jpeg|png|webp))["\']` -/
def reDataSrc : RE :=
  rcat [rlit "data-src=", .cls quoteC,
        .grp (rcat [.plusC true (fun c => c != '"' && c != '\''), .cls (· == '.'), extAlt]),
        .cls quoteC]

/-- Python `"brand"\s*:\s*\{\s*"name"\s*:\s*"([^"]+)"` -/
def reBrandJson : RE :=
  rcat [rlit "\"brand\"", .starC true wsC, rlit ":", .starC true wsC, rlit "\x7b",
        .starC true wsC, rlit "\"name\"", .starC true wsC, rlit ":", .starC true wsC,
        rlit "\"", .grp (.plusC true (· != '"')), rlit "\""]

/-- Python `<meta[^>]+name="brand"[^>]+content="([^"]+)"` -/
def reBrandMeta : RE :=
  rcat [rlit "<meta", .plusC true (· != '>'), rlit "name=\"brand\"",
        .plusC true (· != '>'), rlit "content=\"", .grp (.plusC true (· != '"')), rlit "\""]

/-- Python `brand["\s]*:?["\s]*([^"\n,]+)` -/
def reBrandLoose : RE :=
  rcat [rlit "brand", .starC true (fun c => c == '"' || pyIsspace c),
        .opt true (.cls (· == ':')), .starC true (fun c => c == '"' || pyIsspace c),
        .grp (.plusC true (fun c => c != '"' && c != '\n' && c != ','))]

/-- Python `(in\s+stock|out\s+of\s+stock|available|pre-?order|back\s*order)` -/
def reAvailability : RE :=
  .grp (ralts
    [rcat [rlit "in", .plusC true wsC, rlit "stock"],
     rcat [rlit "out", .plusC true wsC, rlit "of", .plusC true wsC, rlit "stock"],
     rlit "available",
     rcat [rlit "pre", .opt true (.cls (· == '-')), rlit "order"],
     rcat [rlit "back", .starC true wsC, rlit "order"]])

/-- Python `<input[^>]*id=["\']author["\'][^>]*value=["\']([^"\']+)["\']` -/
def reBnAuthorInput : RE :=
  rcat [rlit "<input", .starC true (· != '>'), rlit "id=", .cls quoteC, rlit "author",
        .cls quoteC, .starC true (· != '>'), rlit "value=", .cls quoteC,
        .grp (.plusC true (fun c => c != '"' && c != '\'')), .cls quoteC]

/-- Python `by\s*<a[^>]*href=[^>]*>([^<]+)</a>` -/
def reBnAuthorBy : RE :=
  rcat [rlit "by", .starC true wsC, rlit "<a", .starC true (· != '>'), rlit "href=",
        .starC true (· != '>'), rlit ">", .grp (.plusC true (· != '<')), rlit "</a>"]

/-- Python `\$\d+\.\d+` (text-node price search in the structural extractor) -/
def reDollarAmount : RE :=
  rcat [.cls (· == '$'), .plusC true digitC, .cls (· == '.'), .plusC true digitC]

/-! ## Further Python string builtins used by the extractors -/

/-- Python `html.unescape`, modelling the numeric character references and the named
references that can occur in the claim inputs (`amp`, `lt`, `gt`, `quot`,
`apos`, `nbsp`); other `&...` sequences are left untouched. -/
def namedEntity (name : List Char) : Option (List Char) :=
  if name = "amp".toList then some ['&']
  else if name = "lt".toList then some ['<']
  else if name = "gt".toList then some ['>']
  else if name = "quot".toList then some ['"']
  else if name = "apos".toList then some ['\'']
  else if name = "nbsp".toList then some ['\xa0']
  else none

def pyHtmlUnescapeF : Nat → List Char → List Char
  | 0, cs => cs
  | fuel + 1, cs =>
    match cs with
    | [] => []
    | '&' :: '#' :: rest =>
      let digits := rest.takeWhile Char.isDigit
      if digits.isEmpty then '&' :: pyHtmlUnescapeF fuel ('#' :: rest)
      else
        let cp := digits.foldl (fun acc c => acc * 10 + (c.toNat - '0'.toNat)) 0
        match rest.drop digits.length with
        | ';' :: r2 => Char.ofNat cp :: pyHtmlUnescapeF fuel r2
        | r2 => Char.ofNat cp :: pyHtmlUnescapeF fuel r2
    | '&' :: rest =>
      let name := rest.takeWhile (fun c => c.isAlpha || c.isDigit)
      match rest.drop name.length with
      | ';' :: r2 =>
        match namedEntity name with
        | some repl => repl ++ pyHtmlUnescapeF fuel r2
        | none => '&' :: pyHtmlUnescapeF fuel rest
      | _ => '&' :: pyHtmlUnescapeF fuel rest
    | c :: rest => c :: pyHtmlUnescapeF fuel rest

def pyHtmlUnescape (s : String) : String :=
  String.mk (pyHtmlUnescapeF (s.toList.length + 1) s.toList)

/-- ASCII `str.title()`: uppercase a letter after a non-letter, lowercase
the rest. -/
def pyTitleGo : Bool → List Char → List Char
  | _, [] => []
  | prevAlpha, c :: rest =>
    if c.isAlpha then
      (if prevAlpha then pyLowerChar c else pyUpperChar c) :: pyTitleGo true rest
    else c :: pyTitleGo false rest

def pyTitle (s : String) : String := String.mk (pyTitleGo false s.toList)

/-- Does `float(s)` succeed?  `s` here is a match of `[0-9,]+\.?[0-9]*` with
the commas removed, so it is digits with at most one dot: `float` succeeds
exactly when a digit is present (and the shape is respected). -/
def pyFloatParses (s : String) : Bool :=
  let cs := s.toList
  !cs.isEmpty && cs.any Char.isDigit && cs.all (fun c => c.isDigit || c == '.') &&
    decide ((cs.filter (· == '.')).length ≤ 1)

/-! ## `urllib.parse.urljoin`

Modelled after CPython's `urljoin`/`urlparse`/`urlunparse` restricted to
URLs without query, fragment or parameter parts (the claims' inputs carry
none): the split keeps scheme, netloc and path; the join follows CPython's
algorithm including the dot-segment resolution and the
`uses_relative`/`uses_netloc` scheme lists. -/

def usesRelative : List String :=
  ["", "ftp", "http", "gopher", "nntp", "imap", "wais", "file", "https", "shttp",
   "mms", "prospero", "rtsp", "rtspu", "sftp", "svn", "svn+ssh", "ws", "wss"]

def usesNetloc : List String :=
  ["", "ftp", "http", "gopher", "nntp", "telnet", "imap", "wais", "file", "mms",
   "https", "shttp", "snews", "prospero", "rtsp", "rtspu", "rsync", "svn",
   "svn+ssh", "sftp", "nfs", "git", "git+ssh", "ws", "wss"]

structure UrlP where
  scheme : String
  netloc : String
  path : String

def validSchemeChars (cs : List Char) : Bool :=
  match cs with
  | [] => false
  | c :: rest =>
    c.isAlpha && rest.all (fun x => x.isAlpha || x.isDigit || x == '+' || x == '-' || x == '.')

/-- Split off a scheme at the first `:` when its characters are valid. -/
def splitScheme (cs : List Char) : Option (List Char × List Char) :=
  let pre := cs.takeWhile (· != ':')
  if pre.length = cs.length then none
  else if validSchemeChars pre then some (pyLowerList pre, cs.drop (pre.length + 1))
  else none

def pyUrlsplit (dflScheme : String) (cs : List Char) : UrlP :=
  let sr : String × List Char :=
    match splitScheme cs with
    | some (s, r) => (String.mk s, r)
    | none => (dflScheme, cs)
  if startsSeq sr.2 "//".toList then
    let rest2 := sr.2.drop 2
    let netloc := rest2.takeWhile (fun c => c != '/')
    { scheme := sr.1, netloc := String.mk netloc,
      path := String.mk (rest2.drop netloc.length) }
  else { scheme := sr.1, netloc := "", path := String.mk sr.2 }

/-- Python `urlunparse` restricted to scheme/netloc/path. -/
def pyUrlunsplit (u : UrlP) : String :=
  let url0 := u.path
  let url1 :=
    if u.netloc ≠ "" ∨ pyStartsWith url0 "//" = true then
      (if url0 ≠ "" ∧ ¬ pyStartsWith url0 "/" = true then "//" ++ u.netloc ++ "/" ++ url0
       else "//" ++ u.netloc ++ url0)
    else url0
  if u.scheme ≠ "" then u.scheme ++ ":" ++ url1 else url1

/-- Python `str.split(sep)` for a one-character separator. -/
def splitOnAux (sep : Char) : List Char → List Char → List (List Char)
  | acc, [] => [acc.reverse]
  | acc, c :: rest =>
    if c = sep then acc.reverse :: splitOnAux sep [] rest
    else splitOnAux sep (c :: acc) rest

def splitOn (sep : Char) (cs : List Char) : List (List Char) := splitOnAux sep [] cs

/-- The `..`/`.` resolution loop of `urljoin` (accumulator reversed). -/
def resolveSegs : List (List Char) → List (List Char) → List (List Char)
  | acc, [] => acc.reverse
  | acc, seg :: rest =>
    if seg = "..".toList then resolveSegs (acc.drop 1) rest
    else if seg = ".".toList then resolveSegs acc rest
    else resolveSegs (seg :: acc) rest

def pyUrljoin (base url : String) : String :=
  if base = "" then url
  else if url = "" then base
  else
    let b := pyUrlsplit "" base.toList
    let r := pyUrlsplit b.scheme url.toList
    if r.scheme ≠ b.scheme ∨ ¬ usesRelative.contains r.scheme then url
    else
      let early : Option String × String :=
        if usesNetloc.contains r.scheme then
          if r.netloc ≠ "" then
            (some (pyUrlunsplit { scheme := r.scheme, netloc := r.netloc, path := r.path }),
             "")
          else (none, b.netloc)
        else (none, r.netloc)
      match early.1 with
      | some out => out
      | none =>
        let netloc := early.2
        if r.path = "" then
          pyUrlunsplit { scheme := r.scheme, netloc := netloc, path := b.path }
        else
          let baseParts0 := splitOn '/' b.path.toList
          let baseParts :=
            if baseParts0.getLast?.getD [] ≠ [] then baseParts0.dropLast else baseParts0
          let segments :=
            if pyStartsWith r.path "/" = true then splitOn '/' r.path.toList
            else
              let segs := baseParts ++ splitOn '/' r.path.toList
              match segs with
              | [] => []
              | first :: rest =>
                match rest.getLast? with
                | some lastSeg =>
                  first :: (rest.dropLast.filter (fun s => !s.isEmpty)) ++ [lastSeg]
                | none => [first]
          let resolved := resolveSegs [] segments
          let resolved2 :=
            if segments.getLast?.getD [] = ".".toList ∨
               segments.getLast?.getD [] = "..".toList
            then resolved ++ [[]] else resolved
          let joined := String.intercalate "/" (resolved2.map String.mk)
          let path := if joined = "" then "/" else joined
          pyUrlunsplit { scheme := r.scheme, netloc := netloc, path := path }

/-! ## The generic content extractor
(`extract_product_details_from_content`, `indexing.py` lines 533-679)

The `details` dict: all eight keys are set at construction; values can be
arbitrary decoded JSON values (the structured-data pass copies them
verbatim), so the fields carry `Json`. -/

structure GDetails where
  name : Json
  price : Json
  currency : Json
  imageUrl : Json
  description : Json
  supplier : Json
  productUrl : Json
  availability : Json

def initGDetails (content source_url : String) : GDetails :=
  { name := .str "Unknown Product"
    price := .str "Price not available"
    currency := .str "USD"
    imageUrl := .str "https://via.placeholder.com/300x300?text=No+Image"
    description :=
      .str (if content.toList.length > 200 then pyTake 200 content ++ "..." else content)
    supplier := .str "Unknown Supplier"
    productUrl := .str source_url
    availability := .str "Unknown" }

/-- Python `json_data["description"][:300]`: slicing works on `str` and `list`,
raises `TypeError` (modelled `none`) on anything else. -/
def slice300 : Json → Option Json
  | .str s => some (.str (pyTake 300 s))
  | .arr l => some (.arr (l.take 300))
  | _ => none

/-- The `brand` step of the JSON-LD pass. -/
def brandStep (fields : List (String × Json)) (d : GDetails) : GDetails :=
  match Json.lookupLast fields "brand" with
  | some (.obj bfs) =>
    match Json.lookupLast bfs "name" with
    | some v => { d with supplier := v }
    | none => d
  | some (.str s) => { d with supplier := .str s }
  | _ => d

/-- Python `if "name" in json_data: details["name"] = json_data["name"]` — the
value is copied verbatim (a JSON `null` name yields a `None` field). -/
def nameStepJ (fields : List (String × Json)) (d : GDetails) : GDetails :=
  match Json.lookupLast fields "name" with
  | some v => { d with name := v }
  | none => d

/-- The nested offer price, prefixed with `$` when truthy. -/
def offersStepJ (fields : List (String × Json)) (d : GDetails) : GDetails :=
  match Json.lookupLast fields "offers" with
  | some (.obj ofs) =>
    match Json.lookupLast ofs "price" with
    | some p => if p.pyTruthy then { d with price := .str ("$" ++ Json.pyStrJ p) } else d
    | none => d
  | _ => d

/-- First element of an image array, else the scalar string. -/
def imageStepJ (fields : List (String × Json)) (d : GDetails) : GDetails :=
  match Json.lookupLast fields "image" with
  | some (.arr (x :: _)) => { d with imageUrl := x }
  | some (.str s) => { d with imageUrl := .str s }
  | _ => d

/-- Python `details["description"] = json_data["description"][:300]`; `none`
models the uncaught `TypeError` on a non-sliceable description. -/
def descStepJ (fields : List (String × Json)) (d : GDetails) : Option GDetails :=
  match Json.lookupLast fields "description" with
  | some v =>
    match slice300 v with
    | some v' => some { d with description := v' }
    | none => none
  | none => some d

/-- The field extraction from a parsed `@type = Product` JSON-LD object
(lines 567-588), in source order: name, offers.price, image, description,
brand. -/
def jsonLdExtract (fields : List (String × Json)) (d0 : GDetails) : Option GDetails :=
  match descStepJ fields (imageStepJ fields (offersStepJ fields (nameStepJ fields d0))) with
  | some d => some (brandStep fields d)
  | none => none

inductive PassResult where
  | noMatch : PassResult
  | raised : PassResult
  | returned : GDetails → PassResult

/-- The inner loop over one pattern's matches: parse, check
`isinstance(json_data, dict) and json_data.get("@type") == "Product"`,
return early on success (`JSONDecodeError`/`KeyError` are caught and skip
to the next match). -/
def scanBlocks : List (List Char) → GDetails → PassResult
  | [], _ => .noMatch
  | m :: ms, d =>
    match pyLoads (pyStripList m) with
    | some (.obj fields) =>
      match Json.lookupLast fields "@type" with
      | some (.str t) =>
        if t = "Product" then
          match jsonLdExtract fields d with
          | some d' => .returned d'
          | none => .raised
        else scanBlocks ms d
      | _ => scanBlocks ms d
    | _ => scanBlocks ms d

/-- The image-URL normalization of the regex fallback (lines 645-656),
applied to a non-empty match of an image pattern. -/
def normalizeImgUrl (img_url source_url : String) : String :=
  if ¬ pyStartsWith img_url "http" = true then
    if source_url ≠ "" ∧ (pyStartsWith img_url "/" = true ∨ pyStartsWith img_url "./" = true) then
      pyUrljoin source_url img_url
    else if source_url ≠ "" ∧ ¬ pyStartsWith img_url "//" = true then
      pyUrljoin source_url img_url
    else if pyStartsWith img_url "//" = true then "https:" ++ img_url
    else img_url
  else img_url

/-- Name fallback: first pattern whose match, stripped and HTML-unescaped,
is longer than 3 characters (a shorter match does not stop the chain). -/
def tryNamePatterns : List RE → List Char → Option String
  | [], _ => none
  | p :: ps, content =>
    match reSearch p content with
    | some (_, caps) =>
      let n := pyHtmlUnescape (pyStrip (String.mk (caps.getD [])))
      if n.toList.length > 3 then some n else tryNamePatterns ps content
    | none => tryNamePatterns ps content

/-- Price fallback: strip thousands separators, keep only if `float`
parses, store `"$" + value` (a failing parse moves to the next pattern). -/
def tryPricePatterns : List RE → List Char → Option String
  | [], _ => none
  | p :: ps, content =>
    match reSearch p content with
    | some (_, caps) =>
      let val := String.mk ((caps.getD []).filter (· != ','))
      if pyFloatParses val then some ("$" ++ val) else tryPricePatterns ps content
    | none => tryPricePatterns ps content

/-- Image fallback: first match, normalized against the source URL. -/
def tryImagePatterns : List RE → List Char → String → Option String
  | [], _, _ => none
  | p :: ps, content, src =>
    match reSearch p content with
    | some (_, caps) =>
      let img := String.mk (caps.getD [])
      if img ≠ "" then some (normalizeImgUrl img src) else tryImagePatterns ps content src
    | none => tryImagePatterns ps content src

/-- Supplier fallback: first match, stripped. -/
def trySupplierPatterns : List RE → List Char → Option String
  | [], _ => none
  | p :: ps, content =>
    match reSearch p content with
    | some (_, caps) => some (pyStrip (String.mk (caps.getD [])))
    | none => trySupplierPatterns ps content

/-- Availability fallback: canonicalize "in stock"/"out of stock", else
title-case the matched text. -/
def tryAvailabilityPatterns : List RE → List Char → Option String
  | [], _ => none
  | p :: ps, content =>
    match reSearch p content with
    | some (_, caps) =>
      let text := pyLower (String.mk (caps.getD []))
      if containsSeq text.toList "in stock".toList then some "In Stock"
      else if containsSeq text.toList "out of stock".toList then some "Out of Stock"
      else some (pyTitle text)
    | none => tryAvailabilityPatterns ps content

def namePatterns : List RE := [reTitleTag, reNameJson, reOgTitle, reH1]

def pricePatterns : List RE := [rePriceJson, rePriceSym, rePriceSpan]

def imgPatterns : List RE := [reImageJson, reOgImage, reImgSrc, reDataSrc]

def supplierPatterns : List RE := [reBrandJson, reBrandMeta, reBrandLoose]

def availabilityPatterns : List RE := [reAvailability]

/-- The regex fallback pass (lines 592-677). -/
def fallbackPhase (content : List Char) (src : String) (d0 : GDetails) : GDetails :=
  let d1 :=
    match tryNamePatterns namePatterns content with
    | some n => { d0 with name := .str n }
    | none => d0
  let d2 :=
    match tryPricePatterns pricePatterns content with
    | some p => { d1 with price := .str p }
    | none => d1
  let d3 :=
    match tryImagePatterns imgPatterns content src with
    | some i => { d2 with imageUrl := .str i }
    | none => d2
  let d4 :=
    match trySupplierPatterns supplierPatterns content with
    | some s => { d3 with supplier := .str s }
    | none => d3
  match tryAvailabilityPatterns availabilityPatterns content with
  | some a => { d4 with availability := .str a }
  | none => d4

/-- Python `extract_product_details_from_content`: structured-data pass over both
JSON-LD patterns, early return on the first qualifying block, else the
regex fallback pass.  `none` models an uncaught exception. -/
def extract_product_details_from_content (content source_url : String) : Option GDetails :=
  let d0 := initGDetails content source_url
  let cl := content.toList
  match scanBlocks (reFindallGrp reScriptLdJson cl) d0 with
  | .returned d => some d
  | .raised => none
  | .noMatch =>
    match scanBlocks (reFindallWhole reAtTypeProduct cl) d0 with
    | .returned d => some d
    | .raised => none
    | .noMatch => some (fallbackPhase cl source_url d0)

/-! ## The site-specific structural extractor
(`extract_bn_product_details_from_content`, `indexing.py` lines 373-530)

The BeautifulSoup document is modelled as an explicit node tree: the
extractor is embedded over the parsed tree (plus the raw content string for
the regex author fallback).  `find` is first-in-document-order over the
descendants, `.text` is the concatenation of the descendant strings, and
`class_=lambda x: x and SUB in x.lower()` matchers check the `class`
attribute for truthiness and case-insensitive substring containment. -/

inductive HNode where
  | elem : String → List (String × String) → List HNode → HNode
  | txt : String → HNode

def HNode.attr : HNode → String → Option String
  | .elem _ attrs _, k => attrs.lookup k
  | .txt _, _ => none

mutual

def descs : HNode → List HNode
  | .txt _ => []
  | .elem _ _ cs => descsList cs

def descsList : List HNode → List HNode
  | [] => []
  | c :: cs => c :: (descs c ++ descsList cs)

end

/-- Python `element.find(...)`: the first matching descendant in document order. -/
def findDesc (p : HNode → Bool) (n : HNode) : Option HNode := (descs n).find? p

mutual

/-- Python `.text` / `get_text()`: concatenation of the descendant strings. -/
def getTextN : HNode → String
  | .txt s => s
  | .elem _ _ cs => getTextL cs

def getTextL : List HNode → String
  | [] => ""
  | c :: cs => getTextN c ++ getTextL cs

end

def isTag (t : String) : HNode → Bool
  | .elem tag _ _ => tag == t
  | .txt _ => false

def hasAttrVal (k v : String) (n : HNode) : Bool :=
  match n.attr k with
  | some v' => v' == v
  | none => false

/-- Python `find(t, class_=lambda x: x and sub in x.lower())`. -/
def classContains (t sub : String) (n : HNode) : Bool :=
  isTag t n &&
    (match n.attr "class" with
     | some c => !(c == "") && containsSeq (pyLower c).toList sub.toList
     | none => false)

/-- Python `find(string=re.compile(pat))`: a text node whose string has a match. -/
def isTxtMatching (r : RE) : HNode → Bool
  | .txt s => (reSearch r s.toList).isSome
  | .elem _ _ _ => false

structure BnDetails where
  name : Json
  price : Json
  imageUrl : Json
  description : Json
  supplier : Json
  author : Json
  availability : Json
  productUrl : Json

def bnDefaults (source_url : String) : BnDetails :=
  { name := .str "Unknown Product"
    price := .str "Price not available"
    imageUrl := .str "https://via.placeholder.com/300x300?text=No+Image"
    description := .str "No description available."
    supplier := .str "Barnes & Noble"
    author := .str "Unknown Author"
    availability := .str "Unknown"
    productUrl := .str source_url }

/-- The `for elem in candidates: if elem and elem.text.strip(): take; break`
pattern shared by the title and availability chains. -/
def firstNonEmptyText : List (Option HNode) → Option String
  | [] => none
  | none :: rest => firstNonEmptyText rest
  | some e :: rest =>
    let t := pyStrip (getTextN e)
    if t ≠ "" then some t else firstNonEmptyText rest

/-- Price chain: first candidate whose stripped text contains `$`. -/
def priceFromCands : List (Option HNode) → Option String
  | [] => none
  | none :: rest => priceFromCands rest
  | some e :: rest =>
    let t := pyStrip (getTextN e)
    if containsSeq t.toList "$".toList then some t else priceFromCands rest

/-- Description chain: non-empty stripped text longer than 20 characters,
truncated at 500 with an ellipsis. -/
def descFromCands : List (Option HNode) → Option String
  | [] => none
  | none :: rest => descFromCands rest
  | some e :: rest =>
    let t := pyStrip (getTextN e)
    if t ≠ "" then
      if t.toList.length > 20 then
        some (if t.toList.length > 500 then pyTake 500 t ++ "..." else t)
      else descFromCands rest
    else descFromCands rest

/-- Python `img.get('src') or img.get('data-src') or img.get('data-lazy-src')`. -/
def imgSrcOf (n : HNode) : Option String :=
  let s1 := (n.attr "src").getD ""
  let s2 := if s1 ≠ "" then s1 else (n.attr "data-src").getD ""
  let s3 := if s2 ≠ "" then s2 else (n.attr "data-lazy-src").getD ""
  if s3 ≠ "" then some s3 else none

/-- The retailer-specific URL normalization of the image step. -/
def bnNormalizeImg (u : String) : String :=
  if pyStartsWith u "//" = true then "https:" ++ u
  else if pyStartsWith u "/" = true then "https://www.barnesandnoble.com" ++ u
  else u

/-- Image chain: first candidate with a non-`data:` source, normalized. -/
def imageFromCands : List (Option HNode) → Option String
  | [] => none
  | none :: rest => imageFromCands rest
  | some e :: rest =>
    match imgSrcOf e with
    | some u =>
      if ¬ pyStartsWith u "data:" = true then some (bnNormalizeImg u) else imageFromCands rest
    | none => imageFromCands rest

/-- Python `not product_details["author"] or product_details["author"] == "Unknown Author"`. -/
def bnAuthorFalsyOrDefault (d : BnDetails) : Bool :=
  match d.author with
  | .str s => s.isEmpty || s == "Unknown Author"
  | _ => false

def authorFromLink (sec : HNode) (d : BnDetails) : BnDetails :=
  match findDesc (isTag "a") sec with
  | some link =>
    let t := pyStrip (getTextN link)
    if t ≠ "" then { d with author := .str t } else d
  | none => d

/-- Python `author_section.find('input', id='author')` and its truthy `value`. -/
def bnAuthorInputVal (sec : HNode) : Option String :=
  match findDesc (fun n => isTag "input" n && hasAttrVal "id" "author" n) sec with
  | some inp =>
    match inp.attr "value" with
    | some v => if v ≠ "" then some v else none
    | none => none
  | none => none

/-- The author step (lines 404-421): hidden input value first, else the
first link's text when the author is still falsy/default. -/
def authorStep (container : HNode) (d : BnDetails) : BnDetails :=
  match findDesc (fun n => isTag "div" n && hasAttrVal "id" "pdp-header-authors" n)
      container with
  | none => d
  | some sec =>
    match bnAuthorInputVal sec with
    | some v => { d with author := .str v }
    | none => if bnAuthorFalsyOrDefault d then authorFromLink sec d else d

def titleStep (container : HNode) (d : BnDetails) : BnDetails :=
  match firstNonEmptyText
      [findDesc (classContains "h1" "title") container,
       findDesc (isTag "h1") container,
       findDesc (hasAttrVal "data-testid" "product-title") container,
       findDesc (classContains "div" "product-title") container] with
  | some t => { d with name := .str t }
  | none => d

def priceStep (container : HNode) (d : BnDetails) : BnDetails :=
  match priceFromCands
      [findDesc (hasAttrVal "data-testid" "price") container,
       findDesc (classContains "span" "price") container,
       findDesc (classContains "div" "price") container,
       findDesc (isTxtMatching reDollarAmount) container] with
  | some t => { d with price := .str t }
  | none => d

def descStep (container : HNode) (d : BnDetails) : BnDetails :=
  match descFromCands
      [findDesc (classContains "div" "overview") container,
       findDesc (classContains "div" "description") container,
       findDesc (classContains "div" "summary") container,
       findDesc (hasAttrVal "data-testid" "description") container] with
  | some t => { d with description := .str t }
  | none => d

def imageStep (container : HNode) (d : BnDetails) : BnDetails :=
  match imageFromCands
      [findDesc (fun n => isTag "img" n && hasAttrVal "id" "pdpMainImage" n) container,
       findDesc (classContains "img" "product") container,
       findDesc (fun n => isTag "img" n && hasAttrVal "data-testid" "product-image" n)
         container,
       (match findDesc (classContains "div" "image") container with
        | some dv => findDesc (isTag "img") dv
        | none => none),
       findDesc (isTag "img") container] with
  | some u => { d with imageUrl := .str u }
  | none => d

def availStep (container : HNode) (d : BnDetails) : BnDetails :=
  match firstNonEmptyText
      [findDesc (hasAttrVal "data-testid" "availability") container,
       findDesc (classContains "span" "availability") container,
       findDesc (classContains "div" "stock") container] with
  | some t => { d with availability := .str t }
  | none => d

/-- The post-pass author regex recovery (lines 512-523). -/
def authorRegexFallback (content : List Char) (d : BnDetails) : BnDetails :=
  match reSearch reBnAuthorInput content with
  | some (_, caps) => { d with author := .str (pyStrip (String.mk (caps.getD []))) }
  | none =>
    match reSearch reBnAuthorBy content with
    | some (_, caps) => { d with author := .str (pyStrip (String.mk (caps.getD []))) }
    | none => d

/-- Python `if product_details["author"] == "Unknown Author":` before the regex
fallback. -/
def bnAuthorIsDefault (d : BnDetails) : Bool :=
  match d.author with
  | .str s => s == "Unknown Author"
  | _ => false

/-- The guarded regex recovery after the soup pass:
`if product_details["author"] == "Unknown Author": <regex fallback>`. -/
def bnFinalize (content : List Char) (d : BnDetails) : BnDetails :=
  if bnAuthorIsDefault d then authorRegexFallback content d else d

/-- Python `extract_bn_product_details_from_content` over the parsed tree.  When the
`productDetail-container` div is missing the defaults are returned
immediately (the author regex fallback is skipped by that `return`). -/
def extract_bn_product_details_from_content (soup : HNode) (content : List Char)
    (source_url : String) : BnDetails :=
  match findDesc (fun n => isTag "div" n && hasAttrVal "id" "productDetail-container" n)
      soup with
  | none => bnDefaults source_url
  | some container =>
    bnFinalize content
      (availStep container
        (imageStep container
          (descStep container
            (priceStep container
              (titleStep container
                (authorStep container (bnDefaults source_url)))))))

/-! ## Metadata formatting (`_format_metadata_for_nuclia`, lines 41-58) and
flattening (`_flatten_nuclia_usermetadata`, lines 339-359) -/

/-- Python values appearing in a metadata mapping. -/
inductive PyVal where
  | pynone : PyVal
  | pystr : String → PyVal
  | pyint : Int → PyVal
  | pybool : Bool → PyVal

/-- Python `str(value)`. -/
def pyValStr : PyVal → String
  | .pynone => "None"
  | .pystr s => s
  | .pyint n => toString n
  | .pybool b => if b then "True" else "False"

/-- Python `value is not None and value != ""`. -/
def keepMeta : PyVal → Bool
  | .pynone => false
  | .pystr s => !(s == "")
  | .pyint _ => true
  | .pybool _ => true

/-- The values of the nested Nuclia metadata structure. -/
inductive NVal where
  | vstr : String → NVal
  | vdict : List (String × NVal) → NVal

def nlookupLast (fields : List (String × NVal)) (k : String) : Option NVal :=
  match fields with
  | [] => none
  | (k', v) :: rest =>
    match nlookupLast rest k with
    | some r => some r
    | none => if k' = k then some v else none

mutual

/-- Python `str()` of a nested value (the flatten fallback); dict `repr` is
approximated without escaping, never hit through `_format_metadata_for_nuclia`
output. -/
def nvalStr : NVal → String
  | .vstr s => s
  | .vdict fs => "\x7b" ++ nvalStrFields fs ++ "\x7d"

def nvalStrFields : List (String × NVal) → String
  | [] => ""
  | [(k, v)] => "\x27" ++ k ++ "\x27: " ++ nvalStr v
  | (k, v) :: y :: rest => "\x27" ++ k ++ "\x27: " ++ nvalStr v ++ ", " ++ nvalStrFields (y :: rest)

end

def nvalFalsy : NVal → Bool
  | .vstr s => s == ""
  | .vdict fs => fs.isEmpty

/-- Python `_format_metadata_for_nuclia`: skip `None`/empty-string values,
stringify the rest, wrap as `{"fields": {key: {"value": str(value)}}}`;
`None` when nothing remains. -/
def formatMetadataForNuclia (metadata : List (String × PyVal)) : Option NVal :=
  if metadata.isEmpty then none
  else
    let formatted := metadata.filterMap (fun kv =>
      if keepMeta kv.2 then
        some (kv.1, NVal.vdict [("value", NVal.vstr (pyValStr kv.2))])
      else none)
    if formatted.isEmpty then none
    else some (.vdict [("fields", .vdict formatted)])

/-- Python `_flatten_nuclia_usermetadata`: `{"fields": {k: {"value": v}}} → {k: v}`
with a `str()` fallback for unexpected shapes; `{}` for falsy or non-dict
input or a non-dict `fields`. -/
def flattenNucliaUsermetadata : Option NVal → List (String × NVal)
  | none => []
  | some m =>
    if nvalFalsy m then []
    else
      match m with
      | .vstr _ => []
      | .vdict fs =>
        match nlookupLast fs "fields" with
        | some (.vdict fields) =>
          fields.map (fun kv =>
            match kv.2 with
            | .vdict inner =>
              match nlookupLast inner "value" with
              | some v => (kv.1, v)
              | none => (kv.1, NVal.vstr (nvalStr kv.2))
            | _ => (kv.1, NVal.vstr (nvalStr kv.2)))
        | some _ => []
        | none => []

/-! ## The extractor selector -/

inductive ExtractorChoice where
  | structural : ExtractorChoice
  | generic : ExtractorChoice
deriving DecidableEq

def knownRetailerDomain : String := "barnesandnoble.com"

/-- Modelled from the spec: the host (authority) component of a URL, as
`urlsplit` delimits the netloc — the text after the scheme's `//` up to the
first `/`, `?` or `#`; empty when the URL carries no `//` authority. -/
def urlHost (url : String) : String :=
  let cs : List Char :=
    match splitScheme url.toList with
    | some (_, r) => r
    | none => url.toList
  if startsSeq cs "//".toList then
    String.mk ((cs.drop 2).takeWhile (fun c => c != '/' && c != '?' && c != '#'))
  else ""

/-- Modelled from the spec: the extractor selector is code of this
repository that is not under `src/` — `app.py` imports both extractors but
never calls either, so no selector exists in the sources.  Spec §4.3: given
the target URL, choose the site-specific structural extractor when the URL
HOST matches the known retailer domain by case-insensitive substring match,
else the generic extractor; a pure function of the URL, no state. -/
def selectExtractor (url : String) : ExtractorChoice :=
  if containsSeq (pyLower (urlHost url)).toList
      knownRetailerDomain.toList then .structural
  else .generic

/-! ## Predicates and concrete inputs for the extractor claims -/

/-- A `findall` match qualifies when it parses (after `strip`) to a dict
whose `@type` is `"Product"`. -/
def QualifiesB (m : List Char) : Bool :=
  match pyLoads (pyStripList m) with
  | some (.obj fields) =>
    match Json.lookupLast fields "@type" with
    | some (.str t) => t == "Product"
    | _ => false
  | _ => false

/-- The block's `description`, when present, survives `[:300]` slicing. -/
def descOkFields (fields : List (String × Json)) : Bool :=
  match Json.lookupLast fields "description" with
  | none => true
  | some v => (slice300 v).isSome

/-- All fields of a returned `GDetails` record are non-null. -/
def NNG (d : GDetails) : Prop :=
  d.name ≠ .null ∧ d.price ≠ .null ∧ d.currency ≠ .null ∧ d.imageUrl ≠ .null ∧
  d.description ≠ .null ∧ d.supplier ≠ .null ∧ d.productUrl ≠ .null ∧
  d.availability ≠ .null

/-- All fields of a returned `BnDetails` record are non-null. -/
def NNBn (d : BnDetails) : Prop :=
  d.name ≠ .null ∧ d.price ≠ .null ∧ d.imageUrl ≠ .null ∧ d.description ≠ .null ∧
  d.supplier ≠ .null ∧ d.author ≠ .null ∧ d.availability ≠ .null ∧
  d.productUrl ≠ .null

/-- The values the JSON-LD pass copies verbatim (name, first image array
element, brand name) are not JSON `null` in this block. -/
def BlockNullFree (fields : List (String × Json)) : Prop :=
  Json.lookupLast fields "name" ≠ some .null ∧
  (∀ x l, Json.lookupLast fields "image" = some (.arr (x :: l)) → x ≠ .null) ∧
  (∀ bfs, Json.lookupLast fields "brand" = some (.obj bfs) →
    Json.lookupLast bfs "name" ≠ some .null)

/-- Every structured-data block the extractor might use in `content` is
null-free in the copied positions. -/
def ContentBlocksNullFree (content : String) : Prop :=
  ∀ m ∈ reFindallGrp reScriptLdJson content.toList ++
      reFindallWhole reAtTypeProduct content.toList,
    ∀ fields, pyLoads (pyStripList m) = some (.obj fields) → BlockNullFree fields

def cLampContent : String :=
  "<script type=\"application/ld+json\">\x7b\"@type\":\"Product\",\"name\":\"Lamp\",\"offers\":\x7b\"price\":\"19.99\"\x7d\x7d</script>"

def lampBlock : List Char :=
  "\x7b\"@type\":\"Product\",\"name\":\"Lamp\",\"offers\":\x7b\"price\":\"19.99\"\x7d\x7d".toList

def lampFields : List (String × Json) :=
  [("@type", .str "Product"), ("name", .str "Lamp"),
   ("offers", .obj [("price", .str "19.99")])]

def cDescBadContent : String :=
  "<script type=\"application/ld+json\">\x7b\"@type\":\"Product\",\"description\":5\x7d</script>"

def cNullNameContent : String :=
  "<script type=\"application/ld+json\">\x7b\"@type\":\"Product\",\"name\":null\x7d</script>"

def cTitleContent : String := "<title>Wireless Mouse - BestShop</title>"

def cProtoRelImg : String := "<img src=\"//cdn.example.com/pic.jpg\">"

/-! # Theorems -/

/-! ## Substring-check correctness -/

theorem startsSeq_iff (hay needle : List Char) :
    startsSeq hay needle = true ↔ ∃ q, hay = needle ++ q := by
  induction needle generalizing hay with
  | nil => simp [startsSeq]
  | cons n ns ih =>
    cases hay with
    | nil => simp [startsSeq]
    | cons h t =>
      simp only [startsSeq, Bool.and_eq_true, decide_eq_true_eq, ih]
      constructor
      · rintro ⟨rfl, q, rfl⟩; exact ⟨q, rfl⟩
      · rintro ⟨q, hq⟩
        cases hq
        exact ⟨rfl, q, rfl⟩

theorem containsSeq_iff (hay needle : List Char) :
    containsSeq hay needle = true ↔ OccursIn needle hay := by
  induction hay with
  | nil =>
    rw [containsSeq]
    simp only [Bool.or_eq_true, startsSeq_iff]
    constructor
    · rintro (⟨q, hq⟩ | hfalse)
      · exact ⟨[], q, by simpa using hq⟩
      · exact absurd hfalse (by simp)
    · rintro ⟨p, q, hpq⟩
      have hnil := hpq.symm
      rcases List.append_eq_nil.mp hnil with ⟨hpn, hq⟩
      rcases List.append_eq_nil.mp hpn with ⟨h1, h2⟩
      exact Or.inl ⟨q, by simp [h2, hq]⟩
  | cons h t ih =>
    rw [containsSeq]
    simp only [Bool.or_eq_true, startsSeq_iff, ih]
    constructor
    · rintro (⟨q, hq⟩ | ⟨p, q, hpq⟩)
      · exact ⟨[], q, by simpa using hq⟩
      · exact ⟨h :: p, q, by simp [hpq]⟩
    · rintro ⟨p, q, hpq⟩
      cases p with
      | nil => exact Or.inl ⟨q, by simpa using hpq⟩
      | cons p0 ps =>
        right
        have h2 : h = p0 ∧ t = ps ++ needle ++ q := by
          simpa using hpq
        exact ⟨ps, q, h2.2⟩

/-! ## Decoder-loop lemmas -/

theorem dropWhile_spaces_append (w l : List Char) (hw : ∀ c ∈ w, pyIsspace c = true) :
    (w ++ l).dropWhile pyIsspace = l.dropWhile pyIsspace := by
  induction w with
  | nil => rfl
  | cons c cs ih =>
    have hc : pyIsspace c = true := hw c (by simp)
    rw [List.cons_append, List.dropWhile_cons, if_pos hc]
    exact ih (fun c' hc' => hw c' (by simp [hc']))

theorem dropWhile_head_nonspace (h : Char) (t : List Char) (hh : pyIsspace h = false) :
    (h :: t).dropWhile pyIsspace = h :: t := by
  rw [List.dropWhile_cons, if_neg (by simp [hh])]

theorem chunksText_append_head (g : List Char) (c0 : Char) (gs : List Char)
    (hg : g = c0 :: gs) (hc : pyIsspace c0 = false) :
    ∀ chunks, ChunksOk g chunks →
      ∃ h t, chunksText chunks ++ g = h :: t ∧ pyIsspace h = false := by
  intro chunks hok
  cases chunks with
  | nil => exact ⟨c0, gs, by simp [chunksText, hg], hc⟩
  | cons x r =>
    obtain ⟨b, w, v⟩ := x
    obtain ⟨⟨bc, bs, hb, hbc⟩, -, -, -⟩ := hok
    exact ⟨bc, bs ++ (w ++ chunksText r) ++ g, by simp [chunksText, hb], hbc⟩

theorem decodeLoop_chunks (g : List Char) (c0 : Char) (gs : List Char)
    (hg : g = c0 :: gs) (hc : pyIsspace c0 = false) (hfail : rawDecode g = none) :
    ∀ (chunks : List (List Char × List Char × Json)) (fuel : Nat),
      (chunksText chunks ++ g).length ≤ fuel →
      ChunksOk g chunks →
      decodeLoop fuel (chunksText chunks ++ g) = (chunks.map (fun t => t.2.2), g) := by
  intro chunks
  induction chunks with
  | nil =>
    intro fuel hfuel _
    subst hg
    simp only [chunksText, List.nil_append] at hfuel ⊢
    cases fuel with
    | zero => simp at hfuel
    | succ f => simp [decodeLoop, hfail]
  | cons x r ih =>
    intro fuel hfuel hok
    obtain ⟨b, w, v⟩ := x
    obtain ⟨⟨bc, bs, hb, hbc⟩, hw, hdec, hokr⟩ := hok
    have hgoal : chunksText ((b, w, v) :: r) ++ g = b ++ (w ++ (chunksText r ++ g)) := by
      simp [chunksText]
    cases fuel with
    | zero =>
      exfalso
      rw [hgoal, hb] at hfuel
      simp at hfuel
    | succ f =>
      rw [hgoal]
      have ht : b ++ (w ++ (chunksText r ++ g)) = bc :: (bs ++ (w ++ (chunksText r ++ g))) := by
        rw [hb]; rfl
      rw [ht] at hdec ⊢
      have hdrop : (w ++ (chunksText r ++ g)).dropWhile pyIsspace = chunksText r ++ g := by
        rw [dropWhile_spaces_append w _ hw]
        obtain ⟨h0, t0, he, hh0⟩ := chunksText_append_head g c0 gs hg hc r hokr
        rw [he]
        exact dropWhile_head_nonspace h0 t0 hh0
      have hfuel' : (chunksText r ++ g).length ≤ f := by
        rw [hgoal, hb] at hfuel
        simp only [List.length_cons, List.length_append] at hfuel ⊢
        omega
      have hrec := ih f hfuel' hokr
      simp only [decodeLoop, hdec, hdrop, hrec, List.map_cons]

/-! ## Aggregation lemmas -/

theorem pyJoinStrs_isSome (sep : String) :
    ∀ l : List Json, (∀ v ∈ l, ∃ s, v = Json.str s) → (pyJoinStrs sep l).isSome = true := by
  intro l
  induction l with
  | nil => intro _; rfl
  | cons x xs ih =>
    intro h
    obtain ⟨s, rfl⟩ := h x (by simp)
    cases xs with
    | nil => rfl
    | cons y r =>
      have hrest := ih (fun v hv => h v (by simp [hv]))
      obtain ⟨r', hr'⟩ := Option.isSome_iff_exists.mp hrest
      simp [pyJoinStrs, hr']

theorem aggregate_forall2_products (docs : List Json) (pss : List (List Json))
    (h : List.Forall₂ (fun d ps => d.getKey "products" = some (.arr ps)) docs pss) :
    (aggregate docs).1 = pss.flatten := by
  induction h with
  | nil => rfl
  | @cons d ps ds pss2 hd htl ih =>
    cases d with
    | obj fields =>
      simp only [Json.getKey] at hd
      simp [aggregate, hd, ih]
    | null => simp [Json.getKey] at hd
    | bool b => simp [Json.getKey] at hd
    | num l => simp [Json.getKey] at hd
    | str s => simp [Json.getKey] at hd
    | arr l => simp [Json.getKey] at hd

theorem aggregate_nonobj :
    ∀ docs : List Json, (∀ v ∈ docs, v.isObj = false) → aggregate docs = ([], []) := by
  intro docs
  induction docs with
  | nil => intro _; rfl
  | cons x xs ih =>
    intro h
    have hx := h x (by simp)
    have hxs := ih (fun v hv => h v (by simp [hv]))
    cases x with
    | obj fields => simp [Json.isObj] at hx
    | null => simp [aggregate, hxs]
    | bool b => simp [aggregate, hxs]
    | num l => simp [aggregate, hxs]
    | str s => simp [aggregate, hxs]
    | arr l => simp [aggregate, hxs]

theorem aggregate_filter_isObj :
    ∀ docs : List Json, aggregate docs = aggregate (docs.filter Json.isObj) := by
  intro docs
  induction docs with
  | nil => rfl
  | cons x xs ih =>
    cases x with
    | obj fields =>
      rw [List.filter_cons, if_pos (by simp [Json.isObj])]
      simp only [aggregate, ih]
    | null => rw [List.filter_cons, if_neg (by simp [Json.isObj])]; simp only [aggregate, ih]
    | bool b => rw [List.filter_cons, if_neg (by simp [Json.isObj])]; simp only [aggregate, ih]
    | num l => rw [List.filter_cons, if_neg (by simp [Json.isObj])]; simp only [aggregate, ih]
    | str s => rw [List.filter_cons, if_neg (by simp [Json.isObj])]; simp only [aggregate, ih]
    | arr l => rw [List.filter_cons, if_neg (by simp [Json.isObj])]; simp only [aggregate, ih]

/-! ## Claim C1 -/

/-- C1 (amended): the decode loop of `ask_with_json_schema` never raises on a
decode error — on an undecodable remainder it stops consuming, keeps every
previously decoded document and discards the rest; and the combine step
returns (rather than raising `TypeError`) whenever every collected truthy
`summary` value is a string.  (The unamended claim fails: a decoded non-string
truthy summary makes `" | ".join(summaries)` raise, see the counterexample.) -/
theorem decoder_no_raise_and_stop_on_undecodable :
    (∀ answer : List Char,
        (∀ v ∈ (aggregate (decodeStream (pyLstrip answer)).1).2, ∃ s, v = Json.str s) →
        (processAnswer answer).isSome = true) ∧
    (∀ (chunks : List (List Char × List Char × Json)) (g : List Char) (c0 : Char)
        (gs : List Char),
        g = c0 :: gs → pyIsspace c0 = false → rawDecode g = none → ChunksOk g chunks →
        decodeStream (chunksText chunks ++ g) = (chunks.map (fun t => t.2.2), g)) := by
  constructor
  · intro answer hs
    have hj := pyJoinStrs_isSome " | " _ hs
    obtain ⟨s, hjs⟩ := Option.isSome_iff_exists.mp hj
    simp [processAnswer, hjs]
  · intro chunks g c0 gs hg hc hfail hok
    exact decodeLoop_chunks g c0 gs hg hc hfail chunks _ (Nat.le_succ _) hok

theorem decoder_no_raise_and_stop_on_undecodable_witness :
    (processAnswer ansTwoProducts).isSome = true ∧
    decodeStream ("[1]?!".toList) = ([Json.arr [Json.num "1"]], "?!".toList) := by
  constructor
  · exact decoder_no_raise_and_stop_on_undecodable.1 ansTwoProducts
      (by
        intro v hv
        rw [show (aggregate (decodeStream (pyLstrip ansTwoProducts)).1).2 = ([] : List Json)
          from rfl] at hv
        cases hv)
  · have h2 := decoder_no_raise_and_stop_on_undecodable.2
      [("[1]".toList, ([] : List Char), Json.arr [Json.num "1"])] "?!".toList '?' "!".toList
      rfl (by decide) rfl
      ⟨⟨'[', "1]".toList, rfl, by decide⟩, (by intro c hc; cases hc), rfl, trivial⟩
    exact h2

/-- C1 counterexample: for the answer `{"summary":5}` the combine step
raises `TypeError` (`" | ".join([5])`), so the decode-and-aggregate logic
does fail the caller on this answer string. -/
theorem decoder_raises_on_nonstring_summary :
    processAnswer ansBadSummaryNum = none := rfl

/-! ## Claim C2 -/

/-- C2: for every answer text that the loop decodes completely into documents
each carrying a `products` array, the aggregate product sequence is the
concatenation of those arrays in document order, and its length is the sum of
their sizes. -/
theorem decoder_products_concatenation :
    ∀ (answer : List Char) (pss : List (List Json)),
      (decodeStream answer).2 = [] →
      List.Forall₂ (fun d ps => d.getKey "products" = some (.arr ps))
        (decodeStream answer).1 pss →
      (aggregate (decodeStream answer).1).1 = pss.flatten ∧
      (aggregate (decodeStream answer).1).1.length = (pss.map List.length).sum := by
  intro answer pss _ hall
  have h1 := aggregate_forall2_products _ _ hall
  exact ⟨h1, by rw [h1, List.length_flatten]⟩

theorem decoder_products_concatenation_witness :
    (aggregate (decodeStream ansTwoProducts).1).1 =
      [Json.obj [("name", Json.str "A")], Json.obj [("name", Json.str "B")]] := by
  have h := decoder_products_concatenation ansTwoProducts
    [[Json.obj [("name", Json.str "A")]], [Json.obj [("name", Json.str "B")]]]
    rfl
    (by
      rw [show (decodeStream ansTwoProducts).1 =
        [Json.obj [("products", Json.arr [Json.obj [("name", Json.str "A")]])],
         Json.obj [("products", Json.arr [Json.obj [("name", Json.str "B")]])]] from rfl]
      exact .cons rfl (.cons rfl .nil))
  exact h.1

/-! ## Claim C6 -/

/-- C6 (amended): for every answer whose decoded documents contribute zero
products in aggregate — provided the collected truthy `summary` values are
all strings — `ask_with_json_schema` reports the structured result as absent
(`None`) while still returning success and the (lstripped) answer text.
(The unamended claim fails: a decoded non-string truthy summary raises even
when zero products were aggregated, see the counterexample.) -/
theorem empty_products_reported_absent :
    ∀ answer : List Char,
      (aggregate (decodeStream (pyLstrip answer)).1).1 = [] →
      (∀ v ∈ (aggregate (decodeStream (pyLstrip answer)).1).2, ∃ s, v = Json.str s) →
      processAnswer answer =
        some { success := true, answer := pyLstrip answer, structured := none } := by
  intro answer hp hs
  have hj := pyJoinStrs_isSome " | " _ hs
  obtain ⟨s, hjs⟩ := Option.isSome_iff_exists.mp hj
  simp [processAnswer, hjs, hp]

theorem empty_products_reported_absent_witness :
    processAnswer ansNotJson =
      some { success := true, answer := ansNotJson, structured := none } := by
  have h := empty_products_reported_absent ansNotJson rfl
    (by
      intro v hv
      rw [show (aggregate (decodeStream (pyLstrip ansNotJson)).1).2 = ([] : List Json)
        from rfl] at hv
      cases hv)
  exact h

/-- C6 counterexample: the answer `{"summary":[1]}` contributes zero products
in aggregate, yet the call raises (`" | ".join([[1]])` is a `TypeError`)
instead of returning an absent structured result. -/
theorem empty_products_can_raise_on_nonstring_summary :
    (aggregate (decodeStream (pyLstrip ansBadSummaryList)).1).1 = [] ∧
    processAnswer ansBadSummaryList = none :=
  ⟨rfl, rfl⟩

/-! ## Claim C10 -/

/-- C10: decoded top-level values that are not objects contribute nothing to
the aggregation (the aggregate only sees the object documents), and an answer
all of whose decoded documents are non-objects yields an absent structured
result with success and the raw answer. -/
theorem non_object_documents_contribute_nothing :
    (∀ docs : List Json, aggregate docs = aggregate (docs.filter Json.isObj)) ∧
    (∀ answer : List Char,
      (∀ v ∈ (decodeStream (pyLstrip answer)).1, v.isObj = false) →
      processAnswer answer =
        some { success := true, answer := pyLstrip answer, structured := none }) := by
  constructor
  · exact aggregate_filter_isObj
  · intro answer h
    have hagg := aggregate_nonobj _ h
    simp [processAnswer, hagg, pyJoinStrs]

/-! ## Claim C3 -/

theorem scanBlocks_cons (m : List Char) (ms : List (List Char)) (d : GDetails) :
    scanBlocks (m :: ms) d =
      match pyLoads (pyStripList m) with
      | some (.obj fields) =>
        match Json.lookupLast fields "@type" with
        | some (.str t) =>
          if t = "Product" then
            match jsonLdExtract fields d with
            | some d' => .returned d'
            | none => .raised
          else scanBlocks ms d
        | _ => scanBlocks ms d
      | _ => scanBlocks ms d := rfl

theorem scanBlocks_skip (m : List Char) (ms : List (List Char)) (d : GDetails)
    (h : QualifiesB m = false) : scanBlocks (m :: ms) d = scanBlocks ms d := by
  unfold QualifiesB at h
  rw [scanBlocks_cons]
  rcases hres : pyLoads (pyStripList m) with _ | v
  · rfl
  · rw [hres] at h
    cases v with
    | obj fields =>
      rcases ht : Json.lookupLast fields "@type" with _ | tv
      · simp only [ht]
      · cases tv with
        | str t =>
          simp only [ht] at h ⊢
          have hne : t ≠ "Product" := by simpa using h
          rw [if_neg hne]
        | null => simp only [ht]
        | bool b => simp only [ht]
        | num l => simp only [ht]
        | arr l => simp only [ht]
        | obj o => simp only [ht]
    | null => rfl
    | bool b => rfl
    | num l => rfl
    | str s => rfl
    | arr l => rfl

theorem scanBlocks_prefix_skip (pre rest : List (List Char)) (d : GDetails)
    (h : ∀ m ∈ pre, QualifiesB m = false) :
    scanBlocks (pre ++ rest) d = scanBlocks rest d := by
  induction pre with
  | nil => rfl
  | cons m pre ih =>
    rw [List.cons_append, scanBlocks_skip m _ d (h m (by simp)),
      ih (fun m' hm' => h m' (by simp [hm']))]

theorem descStepJ_eq_none (fields : List (String × Json)) (d : GDetails)
    (hd : Json.lookupLast fields "description" = none) :
    descStepJ fields d = some d := by
  unfold descStepJ
  rw [hd]

theorem descStepJ_eq_some (fields : List (String × Json)) (d : GDetails) (v : Json)
    (hd : Json.lookupLast fields "description" = some v) :
    descStepJ fields d =
      match slice300 v with
      | some v' => some { d with description := v' }
      | none => none := by
  unfold descStepJ
  rw [hd]

theorem jsonLdExtract_isSome (fields : List (String × Json)) (d0 : GDetails)
    (h : descOkFields fields = true) : (jsonLdExtract fields d0).isSome = true := by
  unfold descOkFields at h
  unfold jsonLdExtract
  rcases hd : Json.lookupLast fields "description" with _ | v
  · rw [descStepJ_eq_none _ _ hd]
    rfl
  · rw [hd] at h
    rw [descStepJ_eq_some _ _ v hd]
    rcases hs : slice300 v with _ | v'
    · simp only [hs] at h
      simp at h
    · simp only [hs]
      rfl

/-- C3 (amended): for every HTML input containing a structured-data block
that parses (after `strip`) to a JSON dict with `@type = "Product"` — no
earlier script-tag match qualifying — and whose `description` field, when
present, is sliceable (string or array), the generic extractor returns
immediately after the structured-data pass with the record built from that
block and the defaults alone: the regex fallback patterns never fire.
(The unamended claim fails when the qualifying block's `description` is not
sliceable: `json_data["description"][:300]` raises `TypeError`, see the
counterexample.) -/
theorem structured_pass_returns_early :
    ∀ (content source_url : String) (pre ms : List (List Char)) (m : List Char)
      (fields : List (String × Json)),
      reFindallGrp reScriptLdJson content.toList = pre ++ m :: ms →
      (∀ m' ∈ pre, QualifiesB m' = false) →
      pyLoads (pyStripList m) = some (.obj fields) →
      Json.lookupLast fields "@type" = some (.str "Product") →
      descOkFields fields = true →
      extract_product_details_from_content content source_url =
        jsonLdExtract fields (initGDetails content source_url) ∧
      (jsonLdExtract fields (initGDetails content source_url)).isSome = true := by
  intro content source_url pre ms m fields hfind hpre hload htype hdesc
  have hsome := jsonLdExtract_isSome fields (initGDetails content source_url) hdesc
  obtain ⟨d', hd'⟩ := Option.isSome_iff_exists.mp hsome
  refine ⟨?_, hsome⟩
  have hscan : scanBlocks (m :: ms) (initGDetails content source_url) =
      .returned d' := by
    rw [scanBlocks_cons, hload]
    simp only [htype, hd']
    simp
  simp only [extract_product_details_from_content]
  rw [hfind, scanBlocks_prefix_skip pre _ _ hpre, hscan, hd']

theorem structured_pass_returns_early_witness :
    extract_product_details_from_content cLampContent "" =
      jsonLdExtract lampFields (initGDetails cLampContent "") ∧
    (extract_product_details_from_content cLampContent "").map GDetails.price =
      some (Json.str "$19.99") := by
  have h := structured_pass_returns_early cLampContent "" [] [] lampBlock lampFields
    rfl (by intro m' hm'; cases hm') rfl rfl rfl
  refine ⟨h.1, ?_⟩
  rw [h.1]
  rfl

/-- C3 counterexample: the input contains a valid structured-data Product
block, but its `description` is the number 5: the slice raises `TypeError`,
so the extractor raises instead of returning a record built from the block. -/
theorem structured_pass_can_raise_on_description :
    (reFindallGrp reScriptLdJson cDescBadContent.toList).any QualifiesB = true ∧
    extract_product_details_from_content cDescBadContent "" = none :=
  ⟨rfl, rfl⟩

/-! ## Claim C4 -/

theorem sne (s : String) : Json.str s ≠ Json.null := fun h => Json.noConfusion h

theorem NNG.set_name {d : GDetails} {v : Json} (h : NNG d) (hv : v ≠ Json.null) :
    NNG { d with name := v } :=
  ⟨hv, h.2.1, h.2.2.1, h.2.2.2.1, h.2.2.2.2.1, h.2.2.2.2.2.1, h.2.2.2.2.2.2.1,
   h.2.2.2.2.2.2.2⟩

theorem NNG.set_price {d : GDetails} {v : Json} (h : NNG d) (hv : v ≠ Json.null) :
    NNG { d with price := v } :=
  ⟨h.1, hv, h.2.2.1, h.2.2.2.1, h.2.2.2.2.1, h.2.2.2.2.2.1, h.2.2.2.2.2.2.1,
   h.2.2.2.2.2.2.2⟩

theorem NNG.set_imageUrl {d : GDetails} {v : Json} (h : NNG d) (hv : v ≠ Json.null) :
    NNG { d with imageUrl := v } :=
  ⟨h.1, h.2.1, h.2.2.1, hv, h.2.2.2.2.1, h.2.2.2.2.2.1, h.2.2.2.2.2.2.1,
   h.2.2.2.2.2.2.2⟩

theorem NNG.set_description {d : GDetails} {v : Json} (h : NNG d) (hv : v ≠ Json.null) :
    NNG { d with description := v } :=
  ⟨h.1, h.2.1, h.2.2.1, h.2.2.2.1, hv, h.2.2.2.2.2.1, h.2.2.2.2.2.2.1,
   h.2.2.2.2.2.2.2⟩

theorem NNG.set_supplier {d : GDetails} {v : Json} (h : NNG d) (hv : v ≠ Json.null) :
    NNG { d with supplier := v } :=
  ⟨h.1, h.2.1, h.2.2.1, h.2.2.2.1, h.2.2.2.2.1, hv, h.2.2.2.2.2.2.1,
   h.2.2.2.2.2.2.2⟩

theorem NNG.set_availability {d : GDetails} {v : Json} (h : NNG d) (hv : v ≠ Json.null) :
    NNG { d with availability := v } :=
  ⟨h.1, h.2.1, h.2.2.1, h.2.2.2.1, h.2.2.2.2.1, h.2.2.2.2.2.1, h.2.2.2.2.2.2.1, hv⟩

theorem NNG_init (content source_url : String) : NNG (initGDetails content source_url) :=
  ⟨sne _, sne _, sne _, sne _, sne _, sne _, sne _, sne _⟩

theorem nameStepJ_nn (fields : List (String × Json)) (d : GDetails) (h : NNG d)
    (hbf : Json.lookupLast fields "name" ≠ some Json.null) :
    NNG (nameStepJ fields d) := by
  unfold nameStepJ
  rcases hk : Json.lookupLast fields "name" with _ | v
  · exact h
  · exact NNG.set_name h (fun hv => hbf (by rw [hk, hv]))

theorem offersStepJ_nn (fields : List (String × Json)) (d : GDetails) (h : NNG d) :
    NNG (offersStepJ fields d) := by
  unfold offersStepJ
  rcases hk : Json.lookupLast fields "offers" with _ | v
  · exact h
  · cases v with
    | obj ofs =>
      rcases hp : Json.lookupLast ofs "price" with _ | p
      · simp only [hp]; exact h
      · simp only [hp]
        by_cases ht : p.pyTruthy = true
        · rw [if_pos ht]; exact NNG.set_price h (sne _)
        · rw [if_neg ht]; exact h
    | null => exact h
    | bool b => exact h
    | num l => exact h
    | str s => exact h
    | arr l => exact h

theorem imageStepJ_nn (fields : List (String × Json)) (d : GDetails) (h : NNG d)
    (hbf : ∀ x l, Json.lookupLast fields "image" = some (.arr (x :: l)) → x ≠ .null) :
    NNG (imageStepJ fields d) := by
  unfold imageStepJ
  rcases hk : Json.lookupLast fields "image" with _ | v
  · exact h
  · cases v with
    | arr l =>
      cases l with
      | nil => exact h
      | cons x xs => exact NNG.set_imageUrl h (hbf x xs hk)
    | str s => exact NNG.set_imageUrl h (sne s)
    | null => exact h
    | bool b => exact h
    | num n => exact h
    | obj o => exact h

theorem descStepJ_nn (fields : List (String × Json)) (d d' : GDetails) (h : NNG d)
    (hstep : descStepJ fields d = some d') : NNG d' := by
  unfold descStepJ at hstep
  rcases hk : Json.lookupLast fields "description" with _ | v
  · rw [hk] at hstep
    injection hstep with hstep
    subst hstep
    exact h
  · rw [hk] at hstep
    cases v with
    | str s =>
      have h2 : some { d with description := Json.str (pyTake 300 s) } = some d' := hstep
      injection h2 with h2
      subst h2
      exact NNG.set_description h (sne _)
    | arr l =>
      have h2 : some { d with description := Json.arr (l.take 300) } = some d' := hstep
      injection h2 with h2
      subst h2
      exact NNG.set_description h (fun hh => Json.noConfusion hh)
    | null => exact Option.noConfusion hstep
    | bool b => exact Option.noConfusion hstep
    | num n => exact Option.noConfusion hstep
    | obj o => exact Option.noConfusion hstep

theorem brandStep_nn (fields : List (String × Json)) (d : GDetails) (h : NNG d)
    (hbf : ∀ bfs, Json.lookupLast fields "brand" = some (.obj bfs) →
      Json.lookupLast bfs "name" ≠ some .null) : NNG (brandStep fields d) := by
  unfold brandStep
  rcases hk : Json.lookupLast fields "brand" with _ | v
  · exact h
  · cases v with
    | obj bfs =>
      rcases hn : Json.lookupLast bfs "name" with _ | nv
      · simp only [hn]; exact h
      · simp only [hn]
        exact NNG.set_supplier h (fun hv => hbf bfs hk (by rw [hn, hv]))
    | str s => exact NNG.set_supplier h (sne s)
    | null => exact h
    | bool b => exact h
    | num n => exact h
    | arr l => exact h

theorem jsonLdExtract_nn (fields : List (String × Json)) (d0 d' : GDetails)
    (h0 : NNG d0) (hbf : BlockNullFree fields)
    (hje : jsonLdExtract fields d0 = some d') : NNG d' := by
  unfold jsonLdExtract at hje
  rcases hd : descStepJ fields (imageStepJ fields (offersStepJ fields (nameStepJ fields d0)))
      with _ | dmid
  · rw [hd] at hje
    exact Option.noConfusion hje
  · rw [hd] at hje
    have h2 : some (brandStep fields dmid) = some d' := hje
    injection h2 with h2
    subst h2
    exact brandStep_nn fields dmid
      (descStepJ_nn fields _ dmid
        (imageStepJ_nn fields _ (offersStepJ_nn fields _ (nameStepJ_nn fields _ h0 hbf.1))
          hbf.2.1)
        hd)
      hbf.2.2

theorem scanBlocks_returned_nn :
    ∀ (ms : List (List Char)) (d0 d' : GDetails),
      scanBlocks ms d0 = .returned d' → NNG d0 →
      (∀ m ∈ ms, ∀ fields, pyLoads (pyStripList m) = some (.obj fields) →
        BlockNullFree fields) →
      NNG d' := by
  intro ms
  induction ms with
  | nil =>
    intro d0 d' h _ _
    exact PassResult.noConfusion h
  | cons m ms ih =>
    intro d0 d' h h0 hbf
    have hbf' : ∀ m' ∈ ms, ∀ fields, pyLoads (pyStripList m') = some (.obj fields) →
        BlockNullFree fields :=
      fun m' hm' => hbf m' (by simp [hm'])
    rw [scanBlocks_cons] at h
    rcases hres : pyLoads (pyStripList m) with _ | v
    · rw [hres] at h
      exact ih d0 d' h h0 hbf'
    · rw [hres] at h
      cases v with
      | obj fields =>
        rcases ht : Json.lookupLast fields "@type" with _ | tv
        · simp only [ht] at h
          exact ih d0 d' h h0 hbf'
        · cases tv with
          | str t =>
            simp only [ht] at h
            by_cases htp : t = "Product"
            · rw [if_pos htp] at h
              rcases hje : jsonLdExtract fields d0 with _ | dj
              · rw [hje] at h
                exact PassResult.noConfusion h
              · rw [hje] at h
                have h2 : PassResult.returned dj = PassResult.returned d' := h
                injection h2 with h2
                subst h2
                exact jsonLdExtract_nn fields d0 dj h0 (hbf m (by simp) fields hres) hje
            · rw [if_neg htp] at h
              exact ih d0 d' h h0 hbf'
          | null => simp only [ht] at h; exact ih d0 d' h h0 hbf'
          | bool b => simp only [ht] at h; exact ih d0 d' h h0 hbf'
          | num n => simp only [ht] at h; exact ih d0 d' h h0 hbf'
          | arr l => simp only [ht] at h; exact ih d0 d' h h0 hbf'
          | obj o => simp only [ht] at h; exact ih d0 d' h h0 hbf'
      | null => exact ih d0 d' h h0 hbf'
      | bool b => exact ih d0 d' h h0 hbf'
      | num n => exact ih d0 d' h h0 hbf'
      | str s => exact ih d0 d' h h0 hbf'
      | arr l => exact ih d0 d' h h0 hbf'

theorem tryName_match_nn (content : List Char) (d : GDetails) (h : NNG d) :
    NNG (match tryNamePatterns namePatterns content with
         | some n => { d with name := Json.str n }
         | none => d) := by
  rcases tryNamePatterns namePatterns content with _ | n
  · exact h
  · exact NNG.set_name h (sne n)

theorem tryPrice_match_nn (content : List Char) (d : GDetails) (h : NNG d) :
    NNG (match tryPricePatterns pricePatterns content with
         | some p => { d with price := Json.str p }
         | none => d) := by
  rcases tryPricePatterns pricePatterns content with _ | p
  · exact h
  · exact NNG.set_price h (sne p)

theorem tryImage_match_nn (content : List Char) (src : String) (d : GDetails) (h : NNG d) :
    NNG (match tryImagePatterns imgPatterns content src with
         | some i => { d with imageUrl := Json.str i }
         | none => d) := by
  rcases tryImagePatterns imgPatterns content src with _ | i
  · exact h
  · exact NNG.set_imageUrl h (sne i)

theorem trySupplier_match_nn (content : List Char) (d : GDetails) (h : NNG d) :
    NNG (match trySupplierPatterns supplierPatterns content with
         | some s => { d with supplier := Json.str s }
         | none => d) := by
  rcases trySupplierPatterns supplierPatterns content with _ | s
  · exact h
  · exact NNG.set_supplier h (sne s)

theorem tryAvail_match_nn (content : List Char) (d : GDetails) (h : NNG d) :
    NNG (match tryAvailabilityPatterns availabilityPatterns content with
         | some a => { d with availability := Json.str a }
         | none => d) := by
  rcases tryAvailabilityPatterns availabilityPatterns content with _ | a
  · exact h
  · exact NNG.set_availability h (sne a)

theorem fallbackPhase_nn (content : List Char) (src : String) (d : GDetails)
    (h : NNG d) : NNG (fallbackPhase content src d) :=
  tryAvail_match_nn content _
    (trySupplier_match_nn content _
      (tryImage_match_nn content src _
        (tryPrice_match_nn content _
          (tryName_match_nn content d h))))

/-! B&N side -/

theorem NNBn.setBn_name {d : BnDetails} {v : Json} (h : NNBn d) (hv : v ≠ Json.null) :
    NNBn { d with name := v } :=
  ⟨hv, h.2.1, h.2.2.1, h.2.2.2.1, h.2.2.2.2.1, h.2.2.2.2.2.1, h.2.2.2.2.2.2.1,
   h.2.2.2.2.2.2.2⟩

theorem NNBn.setBn_price {d : BnDetails} {v : Json} (h : NNBn d) (hv : v ≠ Json.null) :
    NNBn { d with price := v } :=
  ⟨h.1, hv, h.2.2.1, h.2.2.2.1, h.2.2.2.2.1, h.2.2.2.2.2.1, h.2.2.2.2.2.2.1,
   h.2.2.2.2.2.2.2⟩

theorem NNBn.setBn_imageUrl {d : BnDetails} {v : Json} (h : NNBn d) (hv : v ≠ Json.null) :
    NNBn { d with imageUrl := v } :=
  ⟨h.1, h.2.1, hv, h.2.2.2.1, h.2.2.2.2.1, h.2.2.2.2.2.1, h.2.2.2.2.2.2.1,
   h.2.2.2.2.2.2.2⟩

theorem NNBn.setBn_description {d : BnDetails} {v : Json} (h : NNBn d) (hv : v ≠ Json.null) :
    NNBn { d with description := v } :=
  ⟨h.1, h.2.1, h.2.2.1, hv, h.2.2.2.2.1, h.2.2.2.2.2.1, h.2.2.2.2.2.2.1,
   h.2.2.2.2.2.2.2⟩

theorem NNBn.setBn_author {d : BnDetails} {v : Json} (h : NNBn d) (hv : v ≠ Json.null) :
    NNBn { d with author := v } :=
  ⟨h.1, h.2.1, h.2.2.1, h.2.2.2.1, h.2.2.2.2.1, hv, h.2.2.2.2.2.2.1,
   h.2.2.2.2.2.2.2⟩

theorem NNBn.setBn_availability {d : BnDetails} {v : Json} (h : NNBn d) (hv : v ≠ Json.null) :
    NNBn { d with availability := v } :=
  ⟨h.1, h.2.1, h.2.2.1, h.2.2.2.1, h.2.2.2.2.1, h.2.2.2.2.2.1, hv,
   h.2.2.2.2.2.2.2⟩

theorem NNBn_defaults (source_url : String) : NNBn (bnDefaults source_url) :=
  ⟨sne _, sne _, sne _, sne _, sne _, sne _, sne _, sne _⟩

theorem authorFromLink_nn (sec : HNode) (d : BnDetails) (h : NNBn d) :
    NNBn (authorFromLink sec d) := by
  unfold authorFromLink
  rcases findDesc (isTag "a") sec with _ | link
  · exact h
  · by_cases ht : pyStrip (getTextN link) ≠ ""
    · simp only [if_pos ht]; exact NNBn.setBn_author h (sne _)
    · simp only [if_neg ht]; exact h

theorem authorStep_nn (c : HNode) (d : BnDetails) (h : NNBn d) :
    NNBn (authorStep c d) := by
  unfold authorStep
  rcases findDesc (fun n => isTag "div" n && hasAttrVal "id" "pdp-header-authors" n) c
      with _ | sec
  · exact h
  · rcases hIV : bnAuthorInputVal sec with _ | v
    · simp only [hIV]
      by_cases hg : bnAuthorFalsyOrDefault d = true
      · simp only [if_pos hg]; exact authorFromLink_nn sec d h
      · simp only [if_neg hg]; exact h
    · simp only [hIV]
      exact NNBn.setBn_author h (sne v)

theorem titleStep_nn (c : HNode) (d : BnDetails) (h : NNBn d) :
    NNBn (titleStep c d) := by
  unfold titleStep
  rcases firstNonEmptyText _ with _ | t
  · exact h
  · exact NNBn.setBn_name h (sne t)

theorem priceStep_nn (c : HNode) (d : BnDetails) (h : NNBn d) :
    NNBn (priceStep c d) := by
  unfold priceStep
  rcases priceFromCands _ with _ | t
  · exact h
  · exact NNBn.setBn_price h (sne t)

theorem descStep_nn (c : HNode) (d : BnDetails) (h : NNBn d) :
    NNBn (descStep c d) := by
  unfold descStep
  rcases descFromCands _ with _ | t
  · exact h
  · exact NNBn.setBn_description h (sne t)

theorem imageStep_nn (c : HNode) (d : BnDetails) (h : NNBn d) :
    NNBn (imageStep c d) := by
  unfold imageStep
  rcases imageFromCands _ with _ | u
  · exact h
  · exact NNBn.setBn_imageUrl h (sne u)

theorem availStep_nn (c : HNode) (d : BnDetails) (h : NNBn d) :
    NNBn (availStep c d) := by
  unfold availStep
  rcases firstNonEmptyText _ with _ | t
  · exact h
  · exact NNBn.setBn_availability h (sne t)

theorem authorRegexFallback_nn (content : List Char) (d : BnDetails) (h : NNBn d) :
    NNBn (authorRegexFallback content d) := by
  unfold authorRegexFallback
  rcases reSearch reBnAuthorInput content with _ | m1
  · rcases reSearch reBnAuthorBy content with _ | m2
    · exact h
    · exact NNBn.setBn_author h (sne _)
  · exact NNBn.setBn_author h (sne _)

theorem bnFinalize_nn (content : List Char) (d : BnDetails) (h : NNBn d) :
    NNBn (bnFinalize content d) := by
  unfold bnFinalize
  by_cases hg : bnAuthorIsDefault d = true
  · rw [if_pos hg]; exact authorRegexFallback_nn content d h
  · rw [if_neg hg]; exact h

/-- C4 (amended): every documented field of the record returned by either
extractor is present and non-null — with one exception forced by the code:
the generic extractor's structured-data pass copies `name`, the first
`image`-array element, and the brand name verbatim from the block, so a JSON
`null` in those positions yields a `None` field (see the counterexample).
Under the proviso that the structured-data blocks carry no `null` in those
copied positions, every field of the generic extractor's record is non-null;
the structural extractor's record always has every field non-null. -/
theorem extractor_fields_always_present_nonnull :
    (∀ (content source_url : String) (d : GDetails),
      extract_product_details_from_content content source_url = some d →
      ContentBlocksNullFree content → NNG d) ∧
    (∀ (soup : HNode) (content : List Char) (source_url : String),
      NNBn (extract_bn_product_details_from_content soup content source_url)) := by
  constructor
  · intro content source_url d hext hbf
    have hbfL : ∀ m ∈ reFindallGrp reScriptLdJson content.toList, ∀ fields,
        pyLoads (pyStripList m) = some (.obj fields) → BlockNullFree fields :=
      fun m hm => hbf m (List.mem_append_left _ hm)
    have hbfR : ∀ m ∈ reFindallWhole reAtTypeProduct content.toList, ∀ fields,
        pyLoads (pyStripList m) = some (.obj fields) → BlockNullFree fields :=
      fun m hm => hbf m (List.mem_append_right _ hm)
    simp only [extract_product_details_from_content] at hext
    rcases h1 : scanBlocks (reFindallGrp reScriptLdJson content.toList)
        (initGDetails content source_url) with _ | _ | d1
    · rw [h1] at hext
      rcases h2 : scanBlocks (reFindallWhole reAtTypeProduct content.toList)
          (initGDetails content source_url) with _ | _ | d2
      · rw [h2] at hext
        have h3 : some (fallbackPhase content.toList source_url
            (initGDetails content source_url)) = some d := hext
        injection h3 with h3
        subst h3
        exact fallbackPhase_nn _ _ _ (NNG_init content source_url)
      · rw [h2] at hext
        exact Option.noConfusion hext
      · rw [h2] at hext
        have h3 : some d2 = some d := hext
        injection h3 with h3
        subst h3
        exact scanBlocks_returned_nn _ _ _ h2 (NNG_init content source_url) hbfR
    · rw [h1] at hext
      exact Option.noConfusion hext
    · rw [h1] at hext
      have h3 : some d1 = some d := hext
      injection h3 with h3
      subst h3
      exact scanBlocks_returned_nn _ _ _ h1 (NNG_init content source_url) hbfL
  · intro soup content source_url
    unfold extract_bn_product_details_from_content
    rcases findDesc
        (fun n => isTag "div" n && hasAttrVal "id" "productDetail-container" n) soup
        with _ | container
    · exact NNBn_defaults source_url
    · exact bnFinalize_nn content _
        (availStep_nn container _
          (imageStep_nn container _
            (descStep_nn container _
              (priceStep_nn container _
                (titleStep_nn container _
                  (authorStep_nn container _ (NNBn_defaults source_url)))))))

theorem extractor_fields_always_present_nonnull_witness :
    NNG (initGDetails "x" "") ∧
    NNBn (extract_bn_product_details_from_content (HNode.elem "html" [] [])
      "x".toList "") := by
  constructor
  · refine extractor_fields_always_present_nonnull.1 "x" "" (initGDetails "x" "") rfl ?_
    intro m hm fields hf
    rw [show reFindallGrp reScriptLdJson "x".toList ++
      reFindallWhole reAtTypeProduct "x".toList = ([] : List (List Char)) from rfl] at hm
    cases hm
  · exact extractor_fields_always_present_nonnull.2 (HNode.elem "html" [] []) "x".toList ""

/-- C4 counterexample: for a structured-data Product block with
`"name": null`, the generic extractor returns a record whose `name` field is
JSON `null` — a field of the returned record is null. -/
theorem jsonld_null_name_copied :
    (extract_product_details_from_content cNullNameContent "").map GDetails.name =
      some Json.null := rfl

/-! ## Claim C5 -/

/-- C5: for the HTML input whose title tag is
`<title>Wireless Mouse - BestShop</title>` (and which contains no
structured-data Product block), the generic extractor takes the page-title
fallback, strips the suffix after " - ", and returns name
`"Wireless Mouse"`. -/
theorem title_suffix_stripped_example :
    (extract_product_details_from_content cTitleContent "").map GDetails.name =
      some (Json.str "Wireless Mouse") := rfl

/-! ## Claim C7 -/

theorem strMk_cons_ne_empty (c : Char) (l : List Char) : String.mk (c :: l) ≠ "" := by
  intro h
  have h2 : c :: l = ([] : List Char) := congrArg String.data h
  exact List.noConfusion h2

theorem strMk_ne_empty (l : List Char) (hl : l ≠ []) : String.mk l ≠ "" := by
  cases l with
  | nil => exact absurd rfl hl
  | cons c t => exact strMk_cons_ne_empty c t

theorem pyStartsWith_slash_of_dslash (u : String) (h : pyStartsWith u "//" = true) :
    pyStartsWith u "/" = true := by
  unfold pyStartsWith at h ⊢
  have e2 : ("//" : String).toList = ['/', '/'] := rfl
  have e1 : ("/" : String).toList = ['/'] := rfl
  rw [e2] at h
  rw [e1]
  rcases hu : u.toList with _ | ⟨c, rest⟩
  · rw [hu] at h; exact Bool.noConfusion h
  · rw [hu] at h
    simp only [startsSeq, Bool.and_eq_true] at h ⊢
    exact ⟨h.1, trivial⟩

theorem startsSeq_nil (l : List Char) : startsSeq l [] = true := by
  cases l <;> rfl

theorem splitScheme_slash (t : List Char) : splitScheme ('/' :: t) = none := by
  unfold splitScheme
  have hpre : ('/' :: t).takeWhile (fun c => c != ':') =
      '/' :: t.takeWhile (fun c => c != ':') := by
    rw [List.takeWhile_cons, if_pos (by decide)]
  rw [hpre]
  by_cases hl : ('/' :: t.takeWhile (fun c => c != ':')).length = ('/' :: t).length
  · rw [if_pos hl]
  · rw [if_neg hl, if_neg]
    intro hv
    rw [show validSchemeChars ('/' :: t.takeWhile (fun c => c != ':')) = false from rfl]
      at hv
    exact Bool.noConfusion hv

theorem takeWhile_noslash_append (nl path : List Char) (hnlc : ∀ c ∈ nl, c ≠ '/')
    (hpath : path = [] ∨ ∃ t, path = '/' :: t) :
    (nl ++ path).takeWhile (fun c => c != '/') = nl := by
  induction nl with
  | nil =>
    rcases hpath with rfl | ⟨t, rfl⟩
    · rfl
    · rw [List.nil_append, List.takeWhile_cons, if_neg (by decide)]
  | cons c cs ih =>
    have hc : c ≠ '/' := hnlc c (by simp)
    rw [List.cons_append, List.takeWhile_cons, if_pos (by simp [hc])]
    rw [ih (fun c' hc' => hnlc c' (by simp [hc']))]

theorem urlsplit_dslash (dfl : String) (nl path : List Char)
    (hnlc : ∀ c ∈ nl, c ≠ '/') (hpath : path = [] ∨ ∃ t, path = '/' :: t) :
    pyUrlsplit dfl ('/' :: '/' :: (nl ++ path)) =
      { scheme := dfl, netloc := String.mk nl, path := String.mk path } := by
  simp only [pyUrlsplit, splitScheme_slash]
  rw [if_pos ?s1]
  case s1 =>
    rw [show ("//" : String).toList = ['/', '/'] from rfl]
    simp [startsSeq, startsSeq_nil]
  rw [show ('/' :: '/' :: (nl ++ path)).drop 2 = nl ++ path from rfl,
    takeWhile_noslash_append nl path hnlc hpath, List.drop_left]

theorem urlunsplit_dslash (nl path : List Char) (hnl : nl ≠ [])
    (hpath : path = [] ∨ ∃ t, path = '/' :: t) :
    pyUrlunsplit { scheme := "http", netloc := String.mk nl, path := String.mk path } =
      "http:" ++ String.mk ('/' :: '/' :: (nl ++ path)) := by
  show (if ("http" : String) ≠ "" then
      "http" ++ ":" ++
        (if String.mk nl ≠ "" ∨ pyStartsWith (String.mk path) "//" = true then
          (if String.mk path ≠ "" ∧ ¬ pyStartsWith (String.mk path) "/" = true then
            "//" ++ String.mk nl ++ "/" ++ String.mk path
          else "//" ++ String.mk nl ++ String.mk path)
        else String.mk path)
    else
      (if String.mk nl ≠ "" ∨ pyStartsWith (String.mk path) "//" = true then
        (if String.mk path ≠ "" ∧ ¬ pyStartsWith (String.mk path) "/" = true then
          "//" ++ String.mk nl ++ "/" ++ String.mk path
        else "//" ++ String.mk nl ++ String.mk path)
      else String.mk path)) =
    "http:" ++ String.mk ('/' :: '/' :: (nl ++ path))
  rw [if_pos (show ("http" : String) ≠ "" by decide)]
  rw [if_pos (Or.inl (strMk_ne_empty nl hnl))]
  rw [if_neg ?hno]
  case hno =>
    rintro ⟨hne, hns⟩
    rcases hpath with rfl | ⟨t, rfl⟩
    · exact hne rfl
    · refine hns ?_
      rw [show pyStartsWith (String.mk ('/' :: t)) "/" =
        startsSeq ('/' :: t) ['/'] from rfl]
      simp [startsSeq, startsSeq_nil]
  apply String.ext
  simp only [String.data_append]
  show "http".data ++ ":".data ++ ("//".data ++ nl ++ path) =
    "http:".data ++ ('/' :: '/' :: (nl ++ path))
  simp

/-- C7 (amended): the image-URL normalization of the generic extractor's
fallback patterns behaves as follows — an absolute (`http…`) URL passes
through unchanged; a protocol-relative URL gets `https:` prepended only when
no source URL is given; with a source URL present, every non-`http…` match
(protocol-relative included) is resolved with `urljoin` against the source
URL, so a protocol-relative URL inherits the *source's* scheme: for an
`http` source the result is `http:` + the URL, not `https:` + it (see the
counterexample). -/
theorem image_url_normalization :
    (∀ u s : String, pyStartsWith u "http" = true → normalizeImgUrl u s = u) ∧
    (∀ u : String, pyStartsWith u "http" = false → pyStartsWith u "//" = true →
      normalizeImgUrl u "" = "https:" ++ u) ∧
    (∀ u s : String, pyStartsWith u "http" = false → s ≠ "" →
      normalizeImgUrl u s = pyUrljoin s u) ∧
    (∀ (b : String) (nl path : List Char),
      b ≠ "" → (pyUrlsplit "" b.toList).scheme = "http" →
      nl ≠ [] → (∀ c ∈ nl, c ≠ '/') → (path = [] ∨ ∃ t, path = '/' :: t) →
      pyUrljoin b (String.mk ('/' :: '/' :: (nl ++ path))) =
        "http:" ++ String.mk ('/' :: '/' :: (nl ++ path))) := by
  refine ⟨?_, ?_, ?_, ?_⟩
  · intro u s h
    unfold normalizeImgUrl
    rw [if_neg (not_not_intro h)]
  · intro u h1 h2
    unfold normalizeImgUrl
    rw [if_pos (by simp [h1])]
    rw [if_neg (by rintro ⟨hc, -⟩; exact hc rfl)]
    rw [if_neg (by rintro ⟨hc, -⟩; exact hc rfl)]
    rw [if_pos h2]
  · intro u s h1 hs
    unfold normalizeImgUrl
    rw [if_pos (by simp [h1])]
    by_cases hd : pyStartsWith u "/" = true ∨ pyStartsWith u "./" = true
    · rw [if_pos ⟨hs, hd⟩]
    · rw [if_neg (fun hc => hd hc.2)]
      have hnd : ¬ pyStartsWith u "//" = true := by
        intro hdd
        exact hd (Or.inl (pyStartsWith_slash_of_dslash u hdd))
      rw [if_pos ⟨hs, hnd⟩]
  · intro b nl path hb hsch hnl hnlc hpath
    simp only [pyUrljoin]
    rw [if_neg hb, if_neg (strMk_cons_ne_empty _ _)]
    rw [show (String.mk ('/' :: '/' :: (nl ++ path))).toList =
      '/' :: '/' :: (nl ++ path) from rfl]
    rw [urlsplit_dslash _ nl path hnlc hpath, hsch]
    rw [if_neg ?hrel]
    case hrel =>
      rintro (hc | hc)
      · exact hc rfl
      · exact hc rfl
    rw [if_pos ?hnet]
    case hnet => exact rfl
    rw [if_pos ?hnetloc]
    case hnetloc => exact strMk_ne_empty nl hnl
    exact urlunsplit_dslash nl path hnl hpath

theorem image_url_normalization_witness :
    normalizeImgUrl "http://a.com/x.jpg" "http://b.com/" = "http://a.com/x.jpg" ∧
    normalizeImgUrl "//cdn.a.com/x.jpg" "" = "https://cdn.a.com/x.jpg" ∧
    normalizeImgUrl "img/x.jpg" "http://b.com/p/q" =
      pyUrljoin "http://b.com/p/q" "img/x.jpg" ∧
    pyUrljoin "http://b.com/p/q" (String.mk ('/' :: '/' ::
      ("cdn.a.com".toList ++ "/x.jpg".toList))) =
      "http:" ++ String.mk ('/' :: '/' :: ("cdn.a.com".toList ++ "/x.jpg".toList)) := by
  refine ⟨?_, ?_, ?_, ?_⟩
  · exact image_url_normalization.1 "http://a.com/x.jpg" "http://b.com/" rfl
  · exact image_url_normalization.2.1 "//cdn.a.com/x.jpg" rfl rfl
  · exact image_url_normalization.2.2.1 "img/x.jpg" "http://b.com/p/q" rfl (by decide)
  · exact image_url_normalization.2.2.2 "http://b.com/p/q" "cdn.a.com".toList
      "/x.jpg".toList (by decide) rfl (by decide) (by decide)
      (Or.inr ⟨"x.jpg".toList, rfl⟩)

/-- C7 counterexample: a protocol-relative image URL matched by the fallback
patterns, with an `http` source URL, is resolved to the source's scheme
(`http:`), not prepended with `https:` as the claim states. -/
theorem protocol_relative_inherits_source_scheme :
    (extract_product_details_from_content cProtoRelImg
      "http://shop.example.com/page").map GDetails.imageUrl =
      some (Json.str "http://cdn.example.com/pic.jpg") ∧
    ("http://cdn.example.com/pic.jpg" : String) ≠ "https://cdn.example.com/pic.jpg" :=
  ⟨rfl, by decide⟩

/-! ## Claim C8 -/

/-- C8: the extractor selector (modelled from the spec, absent from `src/`)
returns the site-specific structural extractor exactly for URLs whose HOST
contains the known retailer domain case-insensitively, and the generic
extractor for every other URL — in particular for URLs merely embedding the
domain in their path or query; it is a pure function of the URL. -/
theorem selector_chooses_by_domain :
    ∀ url : String,
      (OccursIn knownRetailerDomain.toList (pyLower (urlHost url)).toList →
        selectExtractor url = .structural) ∧
      (¬ OccursIn knownRetailerDomain.toList (pyLower (urlHost url)).toList →
        selectExtractor url = .generic) := by
  intro url
  constructor
  · intro h
    have hb := (containsSeq_iff (pyLower (urlHost url)).toList
      knownRetailerDomain.toList).mpr h
    unfold selectExtractor
    rw [if_pos hb]
  · intro h
    have hb : containsSeq (pyLower (urlHost url)).toList
        knownRetailerDomain.toList = false := by
      cases hcase : containsSeq (pyLower (urlHost url)).toList
        knownRetailerDomain.toList with
      | false => rfl
      | true => exact absurd ((containsSeq_iff _ _).mp hcase) h
    unfold selectExtractor
    rw [if_neg (fun hc => by rw [hb] at hc; cases hc)]

theorem selector_chooses_by_domain_witness :
    selectExtractor "https://www.BarnesAndNoble.com/w/dune" = .structural ∧
    selectExtractor "https://example.com/shop" = .generic ∧
    selectExtractor "https://example.com/search?q=BarnesAndNoble.com" = .generic := by
  refine ⟨?_, ?_, ?_⟩
  · exact (selector_chooses_by_domain "https://www.BarnesAndNoble.com/w/dune").1
      ((containsSeq_iff _ _).mp rfl)
  · refine (selector_chooses_by_domain "https://example.com/shop").2 ?_
    intro h
    have hb := (containsSeq_iff
      (pyLower (urlHost "https://example.com/shop")).toList
      knownRetailerDomain.toList).mpr h
    rw [show containsSeq
      (pyLower (urlHost "https://example.com/shop")).toList
      knownRetailerDomain.toList = false from rfl] at hb
    cases hb
  · refine (selector_chooses_by_domain "https://example.com/search?q=BarnesAndNoble.com").2 ?_
    intro h
    have hb := (containsSeq_iff
      (pyLower (urlHost "https://example.com/search?q=BarnesAndNoble.com")).toList
      knownRetailerDomain.toList).mpr h
    rw [show containsSeq
      (pyLower (urlHost "https://example.com/search?q=BarnesAndNoble.com")).toList
      knownRetailerDomain.toList = false from rfl] at hb
    cases hb

/-! ## Claim C9 -/

theorem formatted_eq_wrap (m : List (String × PyVal)) :
    m.filterMap (fun kv =>
      if keepMeta kv.2 then
        some (kv.1, NVal.vdict [("value", NVal.vstr (pyValStr kv.2))])
      else none) =
    (m.filterMap (fun kv =>
      if keepMeta kv.2 then some (kv.1, NVal.vstr (pyValStr kv.2)) else none)).map
      (fun kv => (kv.1, NVal.vdict [("value", kv.2)])) := by
  induction m with
  | nil => rfl
  | cons kv rest ih =>
    cases h : keepMeta kv.2 with
    | false => simp [List.filterMap_cons, h, ih]
    | true => simp [List.filterMap_cons, h, ih]

theorem flatten_mapper_wrap (F : List (String × NVal)) :
    (F.map (fun kv => (kv.1, NVal.vdict [("value", kv.2)]))).map (fun kv =>
      match kv.2 with
      | NVal.vdict inner =>
        match nlookupLast inner "value" with
        | some v => (kv.1, v)
        | none => (kv.1, NVal.vstr (nvalStr kv.2))
      | _ => (kv.1, NVal.vstr (nvalStr kv.2))) = F := by
  induction F with
  | nil => rfl
  | cons kv rest ih => simp [nlookupLast, ih]

theorem flatten_wrap_fields (F : List (String × NVal)) :
    flattenNucliaUsermetadata (some (NVal.vdict [("fields",
      NVal.vdict (F.map (fun kv => (kv.1, NVal.vdict [("value", kv.2)]))))])) = F := by
  have h1 : nvalFalsy (NVal.vdict [("fields",
      NVal.vdict (F.map (fun kv => (kv.1, NVal.vdict [("value", kv.2)]))))]) = false := rfl
  have h2 : nlookupLast [("fields",
      NVal.vdict (F.map (fun kv => (kv.1, NVal.vdict [("value", kv.2)]))))] "fields" =
      some (NVal.vdict (F.map (fun kv => (kv.1, NVal.vdict [("value", kv.2)])))) := rfl
  simp only [flattenNucliaUsermetadata, h1, Bool.false_eq_true, if_false, h2]
  exact flatten_mapper_wrap F

theorem flatten_format (m : List (String × PyVal)) :
    flattenNucliaUsermetadata (formatMetadataForNuclia m) =
      m.filterMap (fun kv =>
        if keepMeta kv.2 then some (kv.1, NVal.vstr (pyValStr kv.2)) else none) := by
  unfold formatMetadataForNuclia
  cases hme : m.isEmpty with
  | true =>
    have hm : m = [] := by
      cases m with
      | nil => rfl
      | cons a b => simp [List.isEmpty] at hme
    subst hm
    rfl
  | false =>
    rw [if_neg (by simp [hme])]
    rw [formatted_eq_wrap]
    cases hF : m.filterMap (fun kv =>
        if keepMeta kv.2 then some (kv.1, NVal.vstr (pyValStr kv.2)) else none) with
    | nil => rfl
    | cons kv rest =>
      rw [if_neg (by simp)]
      exact flatten_wrap_fields (kv :: rest)

theorem filterMap_keep_all (m : List (String × PyVal))
    (hall : ∀ kv ∈ m, ∃ s, kv.2 = PyVal.pystr s ∧ s ≠ "") :
    m.filterMap (fun kv =>
      if keepMeta kv.2 then some (kv.1, NVal.vstr (pyValStr kv.2)) else none) =
    m.map (fun kv => (kv.1, NVal.vstr (pyValStr kv.2))) := by
  induction m with
  | nil => rfl
  | cons kv rest ih =>
    obtain ⟨s, h2, hne⟩ := hall kv (by simp)
    have hk : keepMeta kv.2 = true := by rw [h2]; simp [keepMeta, hne]
    rw [List.filterMap_cons, if_pos hk, List.map_cons,
      ih (fun kv' hkv' => hall kv' (by simp [hkv']))]

/-- C9: flattening the Nuclia-formatted metadata recovers the original
mapping restricted to its non-`None`, non-empty-string values, each value
stringified; in particular a mapping whose values are all non-empty strings
round-trips exactly. -/
theorem metadata_roundtrip :
    (∀ m : List (String × PyVal), (m.map Prod.fst).Nodup →
      flattenNucliaUsermetadata (formatMetadataForNuclia m) =
        m.filterMap (fun kv =>
          if keepMeta kv.2 then some (kv.1, NVal.vstr (pyValStr kv.2)) else none)) ∧
    (∀ m : List (String × PyVal), (m.map Prod.fst).Nodup →
      (∀ kv ∈ m, ∃ s, kv.2 = PyVal.pystr s ∧ s ≠ "") →
      flattenNucliaUsermetadata (formatMetadataForNuclia m) =
        m.map (fun kv => (kv.1, NVal.vstr (pyValStr kv.2)))) :=
  ⟨fun m _ => flatten_format m,
   fun m _ hall => (flatten_format m).trans (filterMap_keep_all m hall)⟩

theorem metadata_roundtrip_witness :
    flattenNucliaUsermetadata (formatMetadataForNuclia
      [("a", PyVal.pystr "x"), ("b", PyVal.pynone), ("c", PyVal.pyint 3)]) =
      [("a", NVal.vstr "x"), ("c", NVal.vstr "3")] ∧
    flattenNucliaUsermetadata (formatMetadataForNuclia
      [("k1", PyVal.pystr "v1"), ("k2", PyVal.pystr "v2")]) =
      [("k1", NVal.vstr "v1"), ("k2", NVal.vstr "v2")] := by
  constructor
  · rw [metadata_roundtrip.1 [("a", PyVal.pystr "x"), ("b", PyVal.pynone),
      ("c", PyVal.pyint 3)] (by decide)]
    rfl
  · rw [metadata_roundtrip.2 [("k1", PyVal.pystr "v1"), ("k2", PyVal.pystr "v2")]
      (by decide)
      (by
        intro kv hkv
        simp only [List.mem_cons, List.not_mem_nil, or_false] at hkv
        rcases hkv with h | h
        · subst h; exact ⟨"v1", rfl, by decide⟩
        · subst h; exact ⟨"v2", rfl, by decide⟩)]
    rfl

theorem non_object_documents_contribute_nothing_witness :
    processAnswer ansBareArray =
      some { success := true, answer := ansBareArray, structured := none } := by
  have h := non_object_documents_contribute_nothing.2 ansBareArray
    (by
      intro v hv
      rw [show (decodeStream (pyLstrip ansBareArray)).1 =
        [Json.arr [Json.obj [("name", Json.str "A"), ("price", Json.str "1")]]] from rfl] at hv
      simp only [List.mem_singleton] at hv
      rw [hv]
      rfl)
  exact h

end Raggle
